import Mathlib

/-!
Verification of the numerical-methods workbench against its specification.

The Rust source is shallowly embedded: f64 arithmetic is modelled by exact
rationals (or by the reals where the code uses sin, cos or square roots),
fallible calls return Except values, mutable loops become explicit recursion
or folds, and iteration caps become fuel parameters.  Each definition mirrors
one function of the source tree.
-/

/-! ## Small list helpers mirroring slice indexing -/

/-- Read a rational slice at an index, 0 when out of bounds. -/
def getq (l : List ℚ) (i : ℕ) : ℚ := l.getD i 0

/-- Write a rational slice at an index, unchanged when out of bounds. -/
def setq : List ℚ → ℕ → ℚ → List ℚ
  | [], _, _ => []
  | _ :: xs, 0, v => v :: xs
  | x :: xs, n + 1, v => x :: setq xs n v

/-- Read a point slice at an index, (0,0) when out of bounds. -/
def getp (l : List (ℚ × ℚ)) (i : ℕ) : ℚ × ℚ := l.getD i (0, 0)

/-! ## common/table_function.rs -/

/-- Error enum of common/table_function.rs. -/
inductive TFError where
  | tableEmpty : TFError
  | pointOutOfBounds (x min max : ℚ) : TFError
  | ioError (s : String) : TFError
  | invalidCsv (line : ℕ) : TFError
deriving DecidableEq

/-- TableFunction: a sorted sample table plus the derived tolerance. -/
structure TableFunction where
  sorted_table : List (ℚ × ℚ)
  eps : ℚ
deriving DecidableEq

/-- Consecutive differences, mirroring the scan in from_table. -/
def consDiffs : ℚ → List ℚ → List ℚ
  | _, [] => []
  | prev, x :: rest => (x - prev) :: consDiffs x rest

/-- TableFunction::from_table: sort by x (stable), derive the tolerance as the
minimal consecutive x-difference divided by the sample count (0 when the
table has at most one point). -/
def TableFunction.from_table (table : List (ℚ × ℚ)) : TableFunction :=
  let sorted := table.insertionSort (fun p q => p.1 ≤ q.1)
  { eps :=
      match sorted with
      | [] => 0
      | (x0, _) :: rest =>
        match (consDiffs x0 (rest.map Prod.fst)).min? with
        | none => 0
        | some m => m / (sorted.length : ℚ)
    sorted_table := sorted }

/-- TableFunction::to_table. -/
def TableFunction.to_table (t : TableFunction) : List (ℚ × ℚ) := t.sorted_table

/-- The linear interpolation helper larp of table_function.rs. -/
def larp (min_x max_x x from_y to_y : ℚ) : ℚ :=
  let t := (x - min_x) / (max_x - min_x)
  from_y * (1 - t) + to_y * t

/-- The interval scan of TableFunction::apply: walk consecutive sample pairs,
return the interpolant on the first interval containing the argument. -/
def applyLoop : ℚ × ℚ → List (ℚ × ℚ) → ℚ → Option ℚ
  | _, [], _ => none
  | prev, (x, y) :: rest, arg =>
    if prev.1 ≤ arg ∧ x ≥ arg then some (larp prev.1 x arg prev.2 y)
    else applyLoop (x, y) rest arg

/-- TableFunction::apply: interval scan, then tolerance checks at both
endpoints, otherwise point-out-of-bounds. -/
def TableFunction.apply (t : TableFunction) (arg : ℚ) : Except TFError ℚ :=
  match t.sorted_table with
  | [] => .error .tableEmpty
  | p :: rest =>
    match applyLoop p rest arg with
    | some v => .ok v
    | none =>
      let lastp := rest.getLastD p
      if |arg - p.1| < t.eps then .ok p.2
      else if |arg - lastp.1| < t.eps then .ok lastp.2
      else .error (.pointOutOfBounds arg p.1 lastp.1)

deriving instance DecidableEq for Except

/-! ## spline/mod.rs -/

/-- Error enum of spline/mod.rs. -/
inductive SplineError where
  | io (s : String) : SplineError
  | pointOutOfBounds (x min max : ℚ) : SplineError
  | noKnownPoints : SplineError
deriving DecidableEq

/-- calc_spline_params: build the tridiagonal system for the node derivatives,
solve it by the Thomas sweep, and convert each interval's Hermite data to
monomial coefficients (a, b, c, d) of d*x^3 + c*x^2 + b*x + a. -/
def calc_spline_params (pts : List (ℚ × ℚ)) : List (ℚ × ℚ × ℚ × ℚ) :=
  let n := pts.length
  let b0 := List.replicate n (0 : ℚ)
  let d0 := List.replicate n (0 : ℚ)
  let a0 := List.replicate (n - 1) (0 : ℚ)
  let c0 := List.replicate (n - 1) (0 : ℚ)
  let abcd := (List.range (n - 1 - 1)).foldl
    (fun (s : List ℚ × List ℚ × List ℚ × List ℚ) k =>
      let i := k + 1
      let (av, bv, cv, dv) := s
      let mui := ((getp pts i).1 - (getp pts (i - 1)).1) /
        ((getp pts (i + 1)).1 - (getp pts (i - 1)).1)
      let lambdai := ((getp pts (i + 1)).1 - (getp pts i).1) /
        ((getp pts (i + 1)).1 - (getp pts (i - 1)).1)
      let dv := setq dv i (3 *
        (mui * ((getp pts (i + 1)).2 - (getp pts i).2) /
            ((getp pts (i + 1)).1 - (getp pts i).1) +
          lambdai * ((getp pts i).2 - (getp pts (i - 1)).2) /
            ((getp pts i).1 - (getp pts (i - 1)).1)))
      let av := setq av (i - 1) lambdai
      let bv := setq bv i 2
      let cv := setq cv i mui
      (av, bv, cv, dv)) (a0, b0, c0, d0)
  let av := abcd.1
  let bv := abcd.2.1
  let cv := abcd.2.2.1
  let dv := abcd.2.2.2
  let dv := setq dv 0 (3 * ((getp pts 1).2 - (getp pts 0).2) /
    ((getp pts 1).1 - (getp pts 0).1))
  let dv := setq dv (n - 1) (3 * ((getp pts (n - 1)).2 - (getp pts (n - 2)).2) /
    ((getp pts (n - 1)).1 - (getp pts (n - 2)).1))
  let bv := setq bv 0 2
  let cv := setq cv 0 1
  let av := setq av (n - 2) 1
  let bv := setq bv (n - 1) 2
  let y0 := List.replicate n (0 : ℚ)
  let alpha0 := List.replicate n (0 : ℚ)
  let beta0 := List.replicate n (0 : ℚ)
  let y1 := setq y0 0 (getq bv 0)
  let alpha1 := setq alpha0 0 (-(getq cv 0) / getq y1 0)
  let beta1 := setq beta0 0 (getq dv 0 / getq y1 0)
  let yab := (List.range (n - 1 - 1)).foldl
    (fun (s : List ℚ × List ℚ × List ℚ) k =>
      let i := k + 1
      let (yv, alphav, betav) := s
      let yv := setq yv i (getq bv i + getq av (i - 1) * getq alphav (i - 1))
      let alphav := setq alphav i (-(getq cv i) / getq yv i)
      let betav := setq betav i ((getq dv i - getq av (i - 1) * getq betav (i - 1)) / getq yv i)
      (yv, alphav, betav)) (y1, alpha1, beta1)
  let alphav := yab.2.1
  let betav := yab.2.2
  let m0 := List.replicate n (0 : ℚ)
  let m1 := setq m0 (n - 1) (getq betav (n - 1))
  let mv := (List.range (n - 1 - 1)).foldl
    (fun (mv : List ℚ) i0 =>
      let i := i0 + 1
      let j := n - i - 1
      setq mv j (getq alphav j * getq mv (j + 1) + getq betav j)) m1
  (List.range (n - 1)).map (fun i =>
    let av := (getp pts i).2
    let bv := (getp pts (i + 1)).2
    let cv := (getp pts i).1
    let dv := (getp pts (i + 1)).1
    let nv := getq mv (i + 1)
    let mvv := getq mv i
    let div1 := (dv - cv) * (dv - cv) * (dv - cv)
    let div2 := (dv - cv) * (dv - cv)
    ((av * dv * dv * dv - 3 * av * cv * dv * dv - cv * cv * cv * bv +
          3 * dv * cv * cv * bv) / div1 +
        (-mvv * cv * dv * dv - nv * dv * cv * cv) / div2,
      (6 * av * dv * cv + 2 * bv * cv * cv - 2 * cv * cv * bv - 6 * dv * bv * cv) / div1 +
        (mvv * dv * dv + 2 * mvv * dv * cv + 2 * nv * dv * cv + nv * cv * cv) / div2,
      (-3 * av * dv - 3 * av * cv + 3 * bv * cv + 3 * dv * bv) / div1 +
        (-2 * mvv * dv - mvv * cv - nv * dv - 2 * nv * cv) / div2,
      (2 * av - 2 * bv) / div1 + (mvv + nv) / div2))

/-- Spline: nodes plus per-interval cubic coefficients. -/
structure Spline where
  pts : List (ℚ × ℚ)
  coefs : List (ℚ × ℚ × ℚ × ℚ)
deriving DecidableEq

/-- Spline::new. -/
def Spline.new (known_points : List (ℚ × ℚ)) : Spline :=
  { coefs := calc_spline_params known_points, pts := known_points }

/-- The interval scan of Spline::apply: the source evaluates the cubic of the
host interval at the interval's right endpoint x, not at the argument. -/
def splineLoop : List (ℚ × ℚ × ℚ × ℚ) → ℚ × ℚ → List (ℚ × ℚ) → ℚ → Option ℚ
  | _, _, [], _ => none
  | coefs, prev, (x, yv) :: rest, arg =>
    if prev.1 ≤ arg ∧ x ≥ arg then
      let cf := coefs.headD (0, 0, 0, 0)
      some (cf.2.2.2 * x * x * x + cf.2.2.1 * x * x + cf.2.1 * x + cf.1)
    else splineLoop coefs.tail (x, yv) rest arg

/-- Spline::apply. -/
def Spline.apply (s : Spline) (arg : ℚ) : Except SplineError ℚ :=
  match s.pts with
  | [] => .error .noKnownPoints
  | p :: rest =>
    match splineLoop s.coefs p rest arg with
    | some v => .ok v
    | none =>
      .error (.pointOutOfBounds arg p.1 (rest.getLastD p).1)

/-! ## integral_eq/volterra_second_kind.rs -/

/-- Error enum of integral_eq/mod.rs. -/
inductive IntError where
  | functionError (s : String) : IntError
deriving DecidableEq

/-- The inner quadrature accumulation of volterra_2nd_system for row i:
sum over j in 1..i of kernel(x_i, x_j) * y_j, with short-circuit on a kernel
failure. -/
def volterraInnerSum (kernel : ℚ → ℚ → Except String ℚ) (lo step xi : ℚ)
    (i : ℕ) (ys : List ℚ) : Except IntError ℚ :=
  (List.range' 1 (i - 1)).foldlM
    (fun acc (j : ℕ) =>
      match kernel xi (lo + step * (j : ℚ)) with
      | .error e => .error (.functionError e)
      | .ok k => .ok (k * getq ys j + acc)) 0

/-- The forward sweep of volterra_2nd_system: given y_0 .. y_(i-1) already in
ys, compute the remaining cnt values. -/
def volterraLoop (kernel : ℚ → ℚ → Except String ℚ) (right_side : ℚ → Except String ℚ)
    (lo step lambda : ℚ) : ℕ → ℕ → List ℚ → Except IntError (List ℚ)
  | _, 0, ys => .ok ys
  | i, cnt + 1, ys =>
    let xi := lo + step * (i : ℚ)
    match kernel xi xi with
    | .error e => .error (.functionError e)
    | .ok kii =>
      let div := 1 - lambda * kii * step * 0.5
      match kernel xi lo with
      | .error e => .error (.functionError e)
      | .ok ki0 =>
        match volterraInnerSum kernel lo step xi i ys with
        | .error e => .error e
        | .ok inner =>
          let sum := 0.5 * ki0 * step * lambda + step * inner
          match right_side xi with
          | .error e => .error (.functionError e)
          | .ok g =>
            let yi := (g + lambda * sum) / div
            volterraLoop kernel right_side lo step lambda (i + 1) cnt (ys ++ [yi])

/-- volterra_2nd_system: trapezoidal forward sweep on the uniform grid,
returning the sampled table function. -/
def volterra_2nd_system (kernel : ℚ → ℚ → Except String ℚ)
    (right_side : ℚ → Except String ℚ) (lo hi lambda : ℚ) (n : ℕ) :
    Except IntError TableFunction :=
  let step := (hi - lo) / ((n : ℚ) - 1)
  let xs := (List.range n).map (fun i => (i : ℚ) * step + lo)
  match right_side lo with
  | .error e => .error (.functionError e)
  | .ok y0 =>
    match volterraLoop kernel right_side lo step lambda 1 (n - 1) [y0] with
    | .error e => .error e
    | .ok ys => .ok (TableFunction.from_table (xs.zip ys))

/-- Modelled from the claim text, for comparison with the source: one step of
the spec recurrence, computing y_i from the previous values with
div_i = 1 - lambda*h*K(x_i,x_i)/2 and
sum_i = lambda*h*K(x_i,x_0)/2 + lambda*h * sum over j in 1..i-1 of
K(x_i,x_j)*y_j. -/
def volterraSpecStep (kernel : ℚ → ℚ → ℚ) (g : ℚ → ℚ) (lo step lambda : ℚ)
    (ys : List ℚ) (i : ℕ) : ℚ :=
  let xi := lo + step * (i : ℚ)
  let div := 1 - lambda * step * kernel xi xi / 2
  let inner := (List.range' 1 (i - 1)).foldl
    (fun acc (j : ℕ) => acc + kernel xi (lo + step * (j : ℚ)) * getq ys j) 0
  (g xi + (lambda * step * kernel xi lo / 2 + lambda * step * inner)) / div

/-- Modelled from the claim text: the whole spec table y_0 .. y_k, with
y_0 = g(x_0). -/
def volterraSpecList (kernel : ℚ → ℚ → ℚ) (g : ℚ → ℚ) (lo step lambda : ℚ) :
    ℕ → List ℚ
  | 0 => [g lo]
  | i + 1 =>
    let ys := volterraSpecList kernel g lo step lambda i
    ys ++ [volterraSpecStep kernel g lo step lambda ys (i + 1)]

/-! ## integral_eq/conjugate_gradients.rs -/

/-- dot: elementwise product then sum (the length argument of the source is
unused there as well). -/
def dotq (a b : List ℚ) : ℚ := (List.zipWith (fun x y => x * y) a b).sum

/-- apply: dense row-major matrix-vector product y = M x. -/
def matApply (mat x : List ℚ) (n : ℕ) : List ℚ :=
  (List.range n).map (fun i =>
    (List.range n).foldl (fun acc j => acc + getq mat (i * n + j) * getq x j) 0)

/-- discrepency: r = M x - f, accumulated rowwise starting from -f. -/
def discrepency (mat x f : List ℚ) (n : ℕ) : List ℚ :=
  (List.range n).map (fun i =>
    (List.range n).foldl (fun acc j => acc + getq mat (i * n + j) * getq x j) (-(getq f i)))

/-- The main loop of conjugate_gradient_method, recording the squared residual
computed at the top of every iteration; stops when it falls below eps^2 or the
fuel (iteration cap) runs out. -/
def cgLoopTrace (a inv_b f : List ℚ) (n : ℕ) (eps : ℚ) :
    ℕ → List ℚ → List ℚ → ℚ → ℚ → ℚ → List ℚ
  | 0, _, _, _, _, _ => []
  | fuel + 1, x, prev_x, prev_tau, prev_alpha, prev_wkrk =>
    let rk := discrepency a x f n
    let e := dotq rk rk
    e :: (if e < eps * eps then [] else
      let wk := matApply inv_b rk n
      let awk := matApply a wk n
      let wkrk := dotq wk rk
      let tau := wkrk / dotq awk wk
      let alpha := 1 / (1 - tau * wkrk / (prev_tau * prev_alpha * prev_wkrk))
      let x2 := (List.range n).map (fun i =>
        alpha * getq x i + (1 - alpha) * getq prev_x i - tau * alpha * getq wk i)
      cgLoopTrace a inv_b f n eps fuel x2 x tau alpha wkrk)

/-- conjugate_gradient_method, instrumented to return the squared residuals
observed at the initial check and at the top of every later iteration, in
order.  The bootstrap step (alpha_0 = 1) is the two-term update of the
source. -/
def cgTrace (a inv_b x0 f : List ℚ) (n : ℕ) (eps : ℚ) (fuel : ℕ) : List ℚ :=
  let rk := discrepency a x0 f n
  let e := dotq rk rk
  e :: (if e < eps * eps then [] else
    let wk := matApply inv_b rk n
    let awk := matApply a wk n
    let wkrk := dotq wk rk
    let tau := wkrk / dotq awk wk
    let x1 := (List.range n).map (fun i => getq x0 i - tau * getq wk i)
    cgLoopTrace a inv_b f n eps fuel x1 x0 tau 1 wkrk)

/-- Row-major symmetry of a flat square matrix. -/
def matSymm (mat : List ℚ) (n : ℕ) : Prop :=
  ∀ i < n, ∀ j < n, getq mat (i * n + j) = getq mat (j * n + i)

/-- Positive definiteness of a flat square matrix on length-n vectors. -/
def matPosDef (mat : List ℚ) (n : ℕ) : Prop :=
  ∀ x : List ℚ, x.length = n → (∃ i < n, getq x i ≠ 0) → 0 < dotq x (matApply mat x n)

/-- The scalar matrix c * I in flat row-major form. -/
def scalarMat (c : ℚ) (n : ℕ) : List ℚ :=
  (List.range (n * n)).map (fun k => if k / n = k % n then c else 0)

/-! ## min_find/golden_ratio_min.rs, over the reals because of sqrt 5 -/

/-- Minimum1d of min_find/mod.rs. -/
structure Minimum1d where
  x : ℝ
  y : ℝ

/-- Error enum of min_find/golden_ratio_min.rs. -/
inductive GoldenError where
  | functionError (s : String) : GoldenError
  | itersEnded (m : Minimum1d) (width : ℝ) : GoldenError

/-- The bracket state: endpoints and their cached function values. -/
structure GoldenState where
  a : ℝ
  fa : ℝ
  b : ℝ
  fb : ℝ

/-- Outcome of the main loop. -/
inductive GoldenOut where
  | success (st : GoldenState) : GoldenOut
  | itersEnded (st : GoldenState) : GoldenOut
  | funcErr (s : String) : GoldenOut

/-- The probe coefficient (3 - sqrt 5) * 0.5 of the source. -/
noncomputable def goldenACoef : ℝ := (3 - Real.sqrt 5) * 0.5

/-- The probe coefficient (-1 + sqrt 5) * 0.5 of the source. -/
noncomputable def goldenBCoef : ℝ := (-1 + Real.sqrt 5) * 0.5

/-- One golden-section state update: probe x1, x2 and run the four strict
comparisons of the source in sequence, each reading the values left by the
previous one. -/
noncomputable def goldenStep (st : GoldenState) (x1 fx1 x2 fx2 : ℝ) : GoldenState :=
  let s1 := if st.fa < fx1 ∧ st.fa < fx2 ∧ st.fa < st.fb then
    { st with b := x1, fb := fx1 } else st
  let s2 := if s1.fb < fx1 ∧ s1.fb < fx2 ∧ s1.fb < s1.fa then
    { s1 with a := x2, fa := fx2 } else s1
  let s3 := if fx1 < s2.fa ∧ fx1 < fx2 ∧ fx1 < s2.fb then
    { s2 with b := x2, fb := fx2 } else s2
  let s4 := if fx2 < s3.fa ∧ fx2 < fx1 ∧ fx2 < s3.fb then
    { s3 with a := x1, fa := fx1 } else s3
  s4

/-- The iteration loop of golden_ratio_min. -/
noncomputable def goldenLoop (f : ℝ → Except String ℝ) (min_width : ℝ) :
    ℕ → GoldenState → GoldenOut
  | 0, st => .itersEnded st
  | fuel + 1, st =>
    if |st.a - st.b| < min_width then .success st
    else
      let x1p := st.a * goldenACoef + st.b * goldenBCoef
      let x2 := max (st.a + st.b - x1p) x1p
      let x1 := st.a + st.b - x2
      match f x1 with
      | .error e => .funcErr e
      | .ok fx1 =>
        match f x2 with
        | .error e => .funcErr e
        | .ok fx2 => goldenLoop f min_width fuel (goldenStep st x1 fx1 x2 fx2)

/-- golden_ratio_min: normalise the bracket, evaluate the ends, iterate. -/
noncomputable def golden_ratio_min (lo hi : ℝ) (f : ℝ → Except String ℝ)
    (min_width : ℝ) (max_iter_count : ℕ) : Except GoldenError Minimum1d :=
  let a := min lo hi
  let b := max lo hi
  match f a with
  | .error e => .error (.functionError e)
  | .ok fa =>
    match f b with
    | .error e => .error (.functionError e)
    | .ok fb =>
      match goldenLoop f min_width max_iter_count ⟨a, fa, b, fb⟩ with
      | .success st => .ok ⟨st.a, st.fa⟩
      | .itersEnded st => .error (.itersEnded ⟨st.a, st.fa⟩ |st.b - st.a|)
      | .funcErr e => .error (.functionError e)

/-- A step objective used to refute the bracket-domination claim. -/
noncomputable def goldenCounterF : ℝ → Except String ℝ :=
  fun x => .ok (if x < 1/2 then 1 else 0)

/-! ## area_calc: secant_method_root.rs, simpson_integrator.rs, mod.rs -/

/-- RootError enum of area_calc/mod.rs. -/
inductive RootErr where
  | functionError (s : String) : RootErr
  | badRange (a b : ℚ) : RootErr
  | itersEnded (lo hi : ℚ) : RootErr
deriving DecidableEq

/-- Error enum of area_calc/mod.rs. -/
inductive AreaError where
  | functionError (s : String) : AreaError
  | rootError (s : String) : AreaError
  | itersEnded : AreaError
  | rootEpsTooBig : AreaError
deriving DecidableEq

/-- The Debug formatting used when a root error is wrapped into
Error::RootError. -/
def rootErrStr : RootErr → String
  | .functionError s => "FunctionError " ++ s
  | .badRange _ _ => "BadRange"
  | .itersEnded _ _ => "ItersEnded"

/-- The panicking unwrap of the source, modelled with default value 0; it is
only reached after the same call already succeeded inside the difference. -/
def exceptD (r : Except String ℚ) : ℚ :=
  match r with
  | .ok v => v
  | .error _ => 0

/-- The false-position loop of area_calc/secant_method_root.rs. -/
def rootLoop (d g : ℚ → Except String ℚ) (eps : ℚ) :
    ℕ → ℚ → ℚ → ℚ → ℚ → Except RootErr (ℚ × ℚ)
  | 0, a, b, _, _ => .error (.itersEnded a b)
  | fuel + 1, a, b, f_a, f_b =>
    if a = b ∨ f_a * f_b > 0 then .error (.badRange a b)
    else
      let c := (a * f_b - b * f_a) / (f_b - f_a)
      match d c with
      | .error e => .error (.functionError e)
      | .ok f_c =>
        if f_c = 0 then .ok (c, exceptD (g c))
        else if f_c > 0 then
          if |c - b| < eps ∧ |f_c| < eps then .ok (c, exceptD (g c))
          else rootLoop d g eps fuel a c f_a f_c
        else
          if |a - c| < eps ∧ |f_c| < eps then .ok (c, exceptD (g c))
          else rootLoop d g eps fuel c b f_c f_b

/-- root of area_calc/secant_method_root.rs: bracket the sign change of
f - g, possibly swapping the ends, then run the false-position loop. -/
def root (f g : ℚ → Except String ℚ) (lo hi eps : ℚ) (fuel : ℕ) :
    Except RootErr (ℚ × ℚ) :=
  let d := fun x =>
    match f x with
    | .error e => (.error e : Except String ℚ)
    | .ok fv =>
      match g x with
      | .error e => .error e
      | .ok gv => .ok (fv - gv)
  match d lo with
  | .error e => .error (.functionError e)
  | .ok f_a =>
    match d hi with
    | .error e => .error (.functionError e)
    | .ok f_b =>
      if f_a = 0 then .ok (lo, exceptD (g lo))
      else if f_b = 0 then .ok (hi, exceptD (g hi))
      else if f_a > 0 ∧ f_b < 0 then rootLoop d g eps fuel hi lo f_b f_a
      else if f_a < 0 ∧ f_b > 0 then rootLoop d g eps fuel lo hi f_a f_b
      else .error (.badRange lo hi)

/-- integrate_step of area_calc/simpson_integrator.rs: the panel-doubling
Simpson step over the sample cache, returning the estimate together with the
updated panel count and cache. -/
def integrate_step (f : ℚ → Except String ℚ) (lo hi : ℚ) (n : ℕ) (cache : List ℚ) :
    Except AreaError (ℚ × ℕ × List ℚ) :=
  if cache.length < 3 then
    match f lo with
    | .error e => .error (.functionError e)
    | .ok y0 =>
      match f hi with
      | .error e => .error (.functionError e)
      | .ok y1 =>
        match f ((lo + hi) / 2) with
        | .error e => .error (.functionError e)
        | .ok y2 =>
          let cache2 := cache ++ [y0, y1, y2]
          .ok ((2 * getq cache2 0 + 2 * getq cache2 1 + 4 * getq cache2 2) *
            (hi - lo) / 6, 2, cache2)
  else
    let step := (hi - lo) / (n : ℚ)
    match (List.range n).foldlM
        (fun (acc : ℚ × List ℚ) (i : ℕ) =>
          match f ((i : ℚ) * step + lo) with
          | .error e => (.error (.functionError e) : Except AreaError (ℚ × List ℚ))
          | .ok y => .ok (y + acc.1, acc.2 ++ [y])) (0, cache) with
    | .error e => .error e
    | .ok sc =>
      let sum := sc.1 * 4 + ((List.range' 1 (n - 1)).map (fun i => getq sc.2 i)).sum * 2 +
        getq sc.2 0 + getq sc.2 n
      let n2 := n * 2
      let new_step := (hi - lo) / ((n2 : ℕ) : ℚ)
      .ok (sum * new_step / 3, n2, sc.2)

/-- One intersection point with the opposite bounding function. -/
structure Side where
  x : ℚ
  y : ℚ
  f : ℚ → Except String ℚ

/-- A Simpson cache: panel count and stored samples. -/
structure SimpCache where
  n : ℕ
  pts : List ℚ

/-- The six caches threaded through one triangle-area computation. -/
structure TriState where
  max0 : SimpCache
  max1 : SimpCache
  max2 : SimpCache
  min0 : SimpCache
  min1 : SimpCache
  min2 : SimpCache

/-- calc_smax of calc_area_top_triangle. -/
def topSmax (f1 f2 f3 : ℚ → Except String ℚ) (a b c e : ℚ) (st : TriState) :
    Except AreaError (ℚ × TriState) :=
  match integrate_step f1 (a - e) (b + e) st.max0.n st.max0.pts with
  | .error er => .error er
  | .ok (v1, n1, c1) =>
    match integrate_step f2 (b - e) (c + e) st.max1.n st.max1.pts with
    | .error er => .error er
    | .ok (v2, n2, c2) =>
      match integrate_step f3 (a + e) (c - e) st.min2.n st.min2.pts with
      | .error er => .error er
      | .ok (v3, n3, c3) =>
        .ok (v1 + v2 - v3,
          { st with max0 := ⟨n1, c1⟩, max1 := ⟨n2, c2⟩, min2 := ⟨n3, c3⟩ })

/-- calc_smin of calc_area_top_triangle. -/
def topSmin (f1 f2 f3 : ℚ → Except String ℚ) (a b c e : ℚ) (st : TriState) :
    Except AreaError (ℚ × TriState) :=
  match integrate_step f1 (a + e) (b - e) st.min0.n st.min0.pts with
  | .error er => .error er
  | .ok (v1, n1, c1) =>
    match integrate_step f2 (b + e) (c - e) st.min1.n st.min1.pts with
    | .error er => .error er
    | .ok (v2, n2, c2) =>
      match integrate_step f3 (a - e) (c + e) st.max2.n st.max2.pts with
      | .error er => .error er
      | .ok (v3, n3, c3) =>
        .ok (v1 + v2 - v3,
          { st with min0 := ⟨n1, c1⟩, min1 := ⟨n2, c2⟩, max2 := ⟨n3, c3⟩ })

/-- calc_smax of calc_area_bottom_triangle. -/
def botSmax (f1 f2 f3 : ℚ → Except String ℚ) (a b c e : ℚ) (st : TriState) :
    Except AreaError (ℚ × TriState) :=
  match integrate_step f1 (a - e) (c + e) st.max0.n st.max0.pts with
  | .error er => .error er
  | .ok (v1, n1, c1) =>
    match integrate_step f2 (a + e) (b - e) st.min1.n st.min1.pts with
    | .error er => .error er
    | .ok (v2, n2, c2) =>
      match integrate_step f3 (b + e) (c - e) st.min2.n st.min2.pts with
      | .error er => .error er
      | .ok (v3, n3, c3) =>
        .ok (v1 - v2 - v3,
          { st with max0 := ⟨n1, c1⟩, min1 := ⟨n2, c2⟩, min2 := ⟨n3, c3⟩ })

/-- calc_smin of calc_area_bottom_triangle. -/
def botSmin (f1 f2 f3 : ℚ → Except String ℚ) (a b c e : ℚ) (st : TriState) :
    Except AreaError (ℚ × TriState) :=
  match integrate_step f1 (a + e) (c - e) st.min0.n st.min0.pts with
  | .error er => .error er
  | .ok (v1, n1, c1) =>
    match integrate_step f2 (a - e) (b + e) st.max1.n st.max1.pts with
    | .error er => .error er
    | .ok (v2, n2, c2) =>
      match integrate_step f3 (b - e) (c + e) st.max2.n st.max2.pts with
      | .error er => .error er
      | .ok (v3, n3, c3) =>
        .ok (v1 - v2 - v3,
          { st with min0 := ⟨n1, c1⟩, max1 := ⟨n2, c2⟩, max2 := ⟨n3, c3⟩ })

/-- The refinement loop shared by both triangle functions: raise
root-eps-too-big when the estimates differ by more than area_eps, return
their mean when both are stable, refine otherwise. -/
def triLoop (smaxF sminF : TriState → Except AreaError (ℚ × TriState)) (area_eps : ℚ) :
    ℕ → ℚ → ℚ → TriState → Except AreaError ℚ
  | 0, _, _, _ => .error .itersEnded
  | fuel + 1, smax_prev, smin_prev, st =>
    match smaxF st with
    | .error e => .error e
    | .ok (smax, st1) =>
      match sminF st1 with
      | .error e => .error e
      | .ok (smin, st2) =>
        if |smax - smin| > area_eps then .error .rootEpsTooBig
        else if |smax - smax_prev| < area_eps ∧ |smin - smin_prev| < area_eps then
          .ok ((smax + smin) / 2)
        else triLoop smaxF sminF area_eps fuel smax smin st2

/-- The empty cache state at the top of each triangle computation. -/
def triInit : TriState := ⟨⟨0, []⟩, ⟨0, []⟩, ⟨0, []⟩, ⟨0, []⟩, ⟨0, []⟩, ⟨0, []⟩⟩

/-- calc_area_top_triangle. -/
def calc_area_top_triangle (s0 s1 s2 : Side) (root_eps area_eps : ℚ) (fuel : ℕ) :
    Except AreaError ℚ :=
  let a := s0.x
  let b := s1.x
  let c := s2.x
  let f2 := s0.f
  let f3 := s1.f
  let f1 := s2.f
  match topSmax f1 f2 f3 a b c root_eps triInit with
  | .error e => .error e
  | .ok (smax0, st1) =>
    match topSmin f1 f2 f3 a b c root_eps st1 with
    | .error e => .error e
    | .ok (smin0, st2) =>
      triLoop (topSmax f1 f2 f3 a b c root_eps) (topSmin f1 f2 f3 a b c root_eps)
        area_eps fuel smax0 smin0 st2

/-- calc_area_bottom_triangle. -/
def calc_area_bottom_triangle (s0 s1 s2 : Side) (root_eps area_eps : ℚ) (fuel : ℕ) :
    Except AreaError ℚ :=
  let a := s0.x
  let b := s1.x
  let c := s2.x
  let f3 := s0.f
  let f1 := s1.f
  let f2 := s2.f
  match botSmax f1 f2 f3 a b c root_eps triInit with
  | .error e => .error e
  | .ok (smax0, st1) =>
    match botSmin f1 f2 f3 a b c root_eps st1 with
    | .error e => .error e
    | .ok (smin0, st2) =>
      triLoop (botSmax f1 f2 f3 a b c root_eps) (botSmin f1 f2 f3 a b c root_eps)
        area_eps fuel smax0 smin0 st2

/-- The body of one outer iteration of calc_area: compute the three pairwise
intersections, sort them, classify the triangle by the slope comparison and
run the matching triangle computation; returns the area together with the
three intersection abscissas. -/
def areaOnce (fa fb fc : ℚ → Except String ℚ) (ab ac bc : ℚ × ℚ)
    (inner_fuel : ℕ) (area_eps root_eps : ℚ) : Except AreaError (ℚ × ℚ × ℚ × ℚ) :=
  match root fa fb ab.1 ab.2 root_eps inner_fuel with
  | .error e => .error (.rootError (rootErrStr e))
  | .ok (abx, aby) =>
    match root fa fc ac.1 ac.2 root_eps inner_fuel with
    | .error e => .error (.rootError (rootErrStr e))
    | .ok (acx, acy) =>
      match root fb fc bc.1 bc.2 root_eps inner_fuel with
      | .error e => .error (.rootError (rootErrStr e))
      | .ok (bcx, bcy) =>
        let sides := ([⟨abx, aby, fc⟩, ⟨acx, acy, fb⟩, ⟨bcx, bcy, fa⟩] : List Side).insertionSort
          (fun s t => s.x ≤ t.x)
        let dflt : Side := ⟨0, 0, fun _ => .ok 0⟩
        let s0 := sides.getD 0 dflt
        let s1 := sides.getD 1 dflt
        let s2 := sides.getD 2 dflt
        let slope1 := (s1.y - s0.y) / (s1.x - s0.x)
        let slope2 := (s2.y - s0.y) / (s2.x - s0.x)
        let res := if slope1 > slope2 then
          calc_area_top_triangle s0 s1 s2 root_eps area_eps inner_fuel
        else
          calc_area_bottom_triangle s0 s1 s2 root_eps area_eps inner_fuel
        match res with
        | .ok area => .ok (area, s0.x, s1.x, s2.x)
        | .error e => .error e

/-- The outer retry loop of calc_area: on root-eps-too-big or iters-ended from
the triangle step, shrink the root tolerance by 0.1 and restart. -/
def calcAreaLoop (fa fb fc : ℚ → Except String ℚ) (ab ac bc : ℚ × ℚ)
    (area_eps : ℚ) (inner_fuel : ℕ) : ℕ → ℚ → Except AreaError (ℚ × ℚ × ℚ × ℚ)
  | 0, _ => .error .itersEnded
  | fuel + 1, root_eps =>
    match areaOnce fa fb fc ab ac bc inner_fuel area_eps root_eps with
    | .ok r => .ok r
    | .error e =>
      if e = .rootEpsTooBig ∨ e = .itersEnded then
        calcAreaLoop fa fb fc ab ac bc area_eps inner_fuel fuel (root_eps * 0.1)
      else .error e

/-- calc_area of area_calc/mod.rs. -/
def calc_area (fa fb fc : ℚ → Except String ℚ) (ab ac bc : ℚ × ℚ)
    (root_start_eps area_eps : ℚ) (max_iter_count : ℕ) :
    Except AreaError (ℚ × ℚ × ℚ × ℚ) :=
  calcAreaLoop fa fb fc ab ac bc area_eps max_iter_count max_iter_count root_start_eps

/-! ## mathparse/expr.rs and mathparse/parse.rs -/

/-- Error enum of mathparse/expr.rs. -/
inductive MathError where
  | undefinedVariable (s : String) : MathError
  | undefinedFunction (s : String) : MathError
  | invalidArgCount (op_name : String) (got expected : ℕ) : MathError
  | math (s : String) : MathError
deriving DecidableEq

/-- The Runtime trait: variable lookup, function evaluation and function-name
recognition (the LaTeX printer is outside the claims). -/
structure RuntimeM where
  get_var : String → Option ℝ
  eval_func : String → List ℝ → Except MathError ℝ
  has_func : String → Bool

/-- The expression AST: f64 literals, variables, the five BasicOp variants and
function calls.  Token literals are exact decimals, hence rationals. -/
inductive Expr where
  | num (q : ℚ) : Expr
  | var (s : String) : Expr
  | plus (l r : Expr) : Expr
  | minus (l r : Expr) : Expr
  | multiply (l r : Expr) : Expr
  | divide (l r : Expr) : Expr
  | negate (e : Expr) : Expr
  | call (name : String) (args : List Expr) : Expr

mutual
/-- Expression::eval: tree walk with left-to-right argument evaluation and a
divide-by-zero check. -/
noncomputable def evalE (rt : RuntimeM) : Expr → Except MathError ℝ
  | .num q => .ok (q : ℝ)
  | .var s =>
    match rt.get_var s with
    | some v => .ok v
    | none => .error (.undefinedVariable s)
  | .plus l r => (evalE rt l).bind fun a => (evalE rt r).map fun b => a + b
  | .minus l r => (evalE rt l).bind fun a => (evalE rt r).map fun b => a - b
  | .multiply l r => (evalE rt l).bind fun a => (evalE rt r).map fun b => a * b
  | .divide l r => (evalE rt l).bind fun a => (evalE rt r).bind fun b =>
      if b = 0 then .error (.math "Divide by zero") else .ok (a / b)
  | .negate e => (evalE rt e).map fun v => -v
  | .call name args => (evalArgs rt args).bind fun vs => rt.eval_func name vs
termination_by e => sizeOf e
/-- Left-to-right evaluation of a call argument list. -/
noncomputable def evalArgs (rt : RuntimeM) : List Expr → Except MathError (List ℝ)
  | [] => .ok []
  | e :: rest => (evalE rt e).bind fun v => (evalArgs rt rest).map fun vs => v :: vs
termination_by l => sizeOf l
end

mutual
/-- Expression::query_vars: the set of free variable names. -/
def Expr.queryVars : Expr → Finset String
  | .num _ => ∅
  | .var s => {s}
  | .plus l r => l.queryVars ∪ r.queryVars
  | .minus l r => l.queryVars ∪ r.queryVars
  | .multiply l r => l.queryVars ∪ r.queryVars
  | .divide l r => l.queryVars ∪ r.queryVars
  | .negate e => e.queryVars
  | .call _ args => exprListVarsAux args ∅
termination_by e => sizeOf e
/-- The fold of FunctionExpression::query_vars over the argument list. -/
def exprListVarsAux : List Expr → Finset String → Finset String
  | [], acc => acc
  | e :: rest, acc => exprListVarsAux rest (acc ∪ e.queryVars)
termination_by l _ => sizeOf l
end
/-- Token enum of mathparse/parse.rs. -/
inductive Token where
  | num (q : ℚ) : Token
  | plus : Token
  | minus : Token
  | multiply : Token
  | divide : Token
  | identifier (s : String) : Token
  | openBracket : Token
  | closeBracket : Token
  | coma : Token
deriving DecidableEq

/-- The reserved punctuation of the tokeniser. -/
def reservedSymbols : List Char := ['+', '-', '*', '/', ',', '(', ')']

/-- The digit fold before the decimal dot of read_number. -/
def digitsBefore : List Char → ℚ → ℕ → ℚ × ℕ × List Char
  | [], acc, cnt => (acc, cnt, [])
  | ch :: rest, acc, cnt =>
    if ch.isDigit then digitsBefore rest (acc * 10 + ((ch.toNat - 48 : ℕ) : ℚ)) (cnt + 1)
    else (acc, cnt, ch :: rest)

/-- The digit-and-divisor fold after the decimal dot of read_number. -/
def digitsAfter : List Char → ℚ → ℕ → ℕ → ℚ × ℕ × ℕ × List Char
  | [], acc, divi, cnt => (acc, divi, cnt, [])
  | ch :: rest, acc, divi, cnt =>
    if ch.isDigit then
      digitsAfter rest (acc * 10 + ((ch.toNat - 48 : ℕ) : ℚ)) (divi * 10) (cnt + 1)
    else (acc, divi, cnt, ch :: rest)

/-- read_number of mathparse/parse.rs: unsigned decimal, optional fractional
part after a dot; a dot with no digits after it is not a number. -/
def readNumber (src : List Char) : Option (ℚ × List Char) :=
  let src := src.dropWhile Char.isWhitespace
  let bd := digitsBefore src 0 0
  if bd.2.1 = 0 then none
  else
    match bd.2.2 with
    | '.' :: rest2 =>
      let ad := digitsAfter rest2 0 1 0
      if ad.2.2.1 = 0 then none
      else some (bd.1 + ad.1 / (ad.2.1 : ℚ), ad.2.2.2)
    | _ => some (bd.1, bd.2.2)

/-- The character class accepted inside identifiers. -/
def isIdentChar (c : Char) : Bool := ¬ c.isWhitespace ∧ reservedSymbols.all (fun s => ¬ c = s)

/-- read_identifier of mathparse/parse.rs: a nonempty run of non-reserved,
non-whitespace characters that does not start with an ASCII digit. -/
def readIdentifier (src : List Char) : Option (String × List Char) :=
  let src := src.dropWhile Char.isWhitespace
  let idChars := src.takeWhile isIdentChar
  let rest := src.dropWhile isIdentChar
  if idChars.length = 0 ∨ (idChars.headD 'a').isDigit then none
  else some (String.mk idChars, rest)

/-- The tokeniser loop: trim, then the reserved single characters in order,
then a number, then an identifier; empty input succeeds, anything else
fails. -/
def tokenizeGo : ℕ → List Char → List Token → Option (List Token)
  | 0, _, _ => none
  | fuel + 1, src, acc =>
    let src := src.dropWhile Char.isWhitespace
    match src with
    | [] => some acc
    | ch :: rest =>
      if ch = '(' then tokenizeGo fuel rest (acc ++ [Token.openBracket])
      else if ch = ')' then tokenizeGo fuel rest (acc ++ [Token.closeBracket])
      else if ch = ',' then tokenizeGo fuel rest (acc ++ [Token.coma])
      else if ch = '+' then tokenizeGo fuel rest (acc ++ [Token.plus])
      else if ch = '-' then tokenizeGo fuel rest (acc ++ [Token.minus])
      else if ch = '*' then tokenizeGo fuel rest (acc ++ [Token.multiply])
      else if ch = '/' then tokenizeGo fuel rest (acc ++ [Token.divide])
      else
        match readNumber (ch :: rest) with
        | some qr => tokenizeGo fuel qr.2 (acc ++ [Token.num qr.1])
        | none =>
          match readIdentifier (ch :: rest) with
          | some ir => tokenizeGo fuel ir.2 (acc ++ [Token.identifier ir.1])
          | none => none

/-- tokenize of mathparse/parse.rs. -/
def tokenize (s : String) : Option (List Token) := tokenizeGo (s.length + 1) s.toList []

/-- The or_else combinator on options, mirroring Option::or_else. -/
def optOr (a b : Option α) : Option α :=
  match a with
  | some x => some x
  | none => b

/-- The bracket-depth update of the parse_arglist scan. -/
def comaDepthStep (t : Token) (d : ℤ) : ℤ :=
  match t with
  | Token.closeBracket => d - 1
  | Token.openBracket => d + 1
  | _ => d

/-- The depth-aware scan for the first top-level comma of parse_arglist,
returning the segment before it and the remainder after it. -/
def splitFirstComa : ℤ → List Token → List Token → Option (List Token × List Token)
  | _, _, [] => none
  | d, pre, t :: rest =>
    if t = Token.coma ∧ comaDepthStep t d = 0 then some (pre, rest)
    else splitFirstComa (comaDepthStep t d) (pre ++ [t]) rest

/-- splitFirstComa finds an actual split of its input. -/
theorem splitFirstComa_spec :
    ∀ (rest : List Token) (d : ℤ) (pre seg r : List Token),
      splitFirstComa d pre rest = some (seg, r) →
      ∃ mid, seg = pre ++ mid ∧ rest = mid ++ Token.coma :: r := by
  intro rest
  induction rest with
  | nil => intro d pre seg r h; simp [splitFirstComa] at h
  | cons t rest2 ih =>
    intro d pre seg r h
    rw [splitFirstComa] at h
    split at h
    · rename_i hcond
      injection h with h
      have h1 : pre = seg := congrArg Prod.fst h
      have h2 : rest2 = r := congrArg Prod.snd h
      exact ⟨[], by simp [h1], by simp [hcond.1, h2]⟩
    · obtain ⟨mid, hseg, hrest⟩ := ih _ _ _ _ h
      exact ⟨t :: mid, by simpa using hseg, by simp [hrest]⟩

/-- The remainder returned by splitFirstComa is shorter than the input. -/
theorem splitFirstComa_length {rest : List Token} {d : ℤ} {pre seg r : List Token}
    (h : splitFirstComa d pre rest = some (seg, r)) : r.length < rest.length := by
  obtain ⟨mid, _, hrest⟩ := splitFirstComa_spec rest d pre seg r h
  subst hrest
  simp
  omega

/-- parse_arglist's segmentation: split the token list at every top-level
comma. -/
def splitTopComas (tokens : List Token) : List (List Token) :=
  match h : splitFirstComa 0 [] tokens with
  | none => [tokens]
  | some (seg, r) => seg :: splitTopComas r
termination_by tokens.length
decreasing_by exact splitFirstComa_length h

/-- Parse every comma segment with the given expression parser, mirroring the
all-or-nothing loop of parse_arglist. -/
def parseSegsWith (pe : List Token → Option Expr) : List (List Token) → Option (List Expr)
  | [] => some []
  | s :: rest => (pe s).bind fun e => (parseSegsWith pe rest).map fun es => e :: es

/-- The reverse scan of parse_implicit_multiplication looking for the opening
bracket matching the final closing bracket; the list argument is the reversed
token list without its last element, the state starts after processing that
last element. -/
def fmoGo : List Token → ℤ → ℕ → Option ℕ
  | [], _, _ => none
  | t :: rest, s, idx =>
    match t with
    | Token.closeBracket => fmoGo rest (s + 1) (idx - 1)
    | Token.openBracket => if s - 1 = 0 then some idx else fmoGo rest (s - 1) (idx - 1)
    | _ => fmoGo rest s (idx - 1)

/-- The matching-bracket search over the whole token list, skipping the final
token's own scan entry exactly as the source's skip(1) does. -/
def findMatchingOpen (tokens : List Token) : Option ℕ :=
  match tokens.reverse with
  | [] => none
  | t0 :: rest =>
    let s0 : ℤ :=
      match t0 with
      | Token.closeBracket => 1
      | Token.openBracket => -1
      | _ => 0
    fmoGo rest s0 (tokens.length - 2)

mutual
/-- parse_expr: scan left-to-right for the first + (then -) at which both the
prefix parses as an expression and the suffix as a term; otherwise a term. -/
def parseExpr (fuel : ℕ) (rt : RuntimeM) (tokens : List Token) : Option Expr :=
  match fuel with
  | 0 => none
  | fuel + 1 =>
    optOr
      (([Token.plus, Token.minus]).findSome? (fun op =>
        (List.range tokens.length).findSome? (fun i =>
          if tokens.get? i = some op then
            match op with
            | Token.plus =>
              (parseExpr fuel rt (tokens.take i)).bind fun l =>
                (parseTerm fuel rt (tokens.drop (i + 1))).map fun r => Expr.plus l r
            | Token.minus =>
              (parseExpr fuel rt (tokens.take i)).bind fun l =>
                (parseTerm fuel rt (tokens.drop (i + 1))).map fun r => Expr.minus l r
            | _ => none
          else none)))
      (parseTerm fuel rt tokens)
termination_by (fuel, 0)

/-- parse_term: scan for * (then /), then unary minus, then implicit
multiplication, then a factor. -/
def parseTerm (fuel : ℕ) (rt : RuntimeM) (tokens : List Token) : Option Expr :=
  match fuel with
  | 0 => none
  | fuel + 1 =>
    optOr
      (([Token.multiply, Token.divide]).findSome? (fun op =>
        (List.range tokens.length).findSome? (fun i =>
          if tokens.get? i = some op then
            match op with
            | Token.multiply =>
              (parseTerm fuel rt (tokens.take i)).bind fun l =>
                (parseFactor fuel rt (tokens.drop (i + 1))).map fun r => Expr.multiply l r
            | Token.divide =>
              (parseTerm fuel rt (tokens.take i)).bind fun l =>
                (parseFactor fuel rt (tokens.drop (i + 1))).map fun r => Expr.divide l r
            | _ => none
          else none)))
      (optOr
        (match tokens.head? with
        | some Token.minus =>
          if tokens.length > 1 then (parseTerm fuel rt (tokens.drop 1)).map Expr.negate
          else none
        | _ => none)
        (optOr (parseImplicitMul fuel rt tokens) (parseFactor fuel rt tokens)))
termination_by (fuel, 0)

/-- Does this optional token hold an identifier the runtime knows as a
function name? -/
def isFuncIdent (rt : RuntimeM) (t : Option Token) : Bool :=
  match t with
  | some (Token.identifier id) => rt.has_func id
  | _ => false

/-- parse_implicit_multiplication: split at the last token when it is a
number, a non-function identifier, or a bracketed group (with the special
case of a function call just before the matching open bracket). -/
def parseImplicitMul (fuel : ℕ) (rt : RuntimeM) (tokens : List Token) : Option Expr :=
  match fuel with
  | 0 => none
  | fuel + 1 =>
    match tokens.getLast? with
    | none => none
    | some t =>
      match t with
      | Token.num q =>
        (parseTerm fuel rt tokens.dropLast).map fun l => Expr.multiply l (Expr.num q)
      | Token.identifier v =>
        if rt.has_func v then none
        else (parseTerm fuel rt tokens.dropLast).map fun l => Expr.multiply l (Expr.var v)
      | Token.closeBracket =>
        match findMatchingOpen tokens with
        | none => none
        | some j =>
          if 2 ≤ j ∧ isFuncIdent rt (tokens.get? (j - 1)) then
            (parseTerm fuel rt (tokens.take (j - 1))).bind fun l =>
              (parseFactor fuel rt (tokens.drop (j - 1))).map fun r => Expr.multiply l r
          else
            (parseTerm fuel rt (tokens.take j)).bind fun l =>
              (parseFactor fuel rt (tokens.drop j)).map fun r => Expr.multiply l r
      | _ => none
termination_by (fuel, 0)

/-- parse_factor: a lone number, a function call, a lone non-function
identifier, or a bracketed expression. -/
def parseFactor (fuel : ℕ) (rt : RuntimeM) (tokens : List Token) : Option Expr :=
  match fuel with
  | 0 => none
  | fuel + 1 =>
    match tokens.head? with
    | none => none
    | some t =>
      match t with
      | Token.num q => if tokens.length = 1 then some (Expr.num q) else none
      | Token.identifier id =>
        if tokens.get? 1 = some Token.openBracket ∧ tokens.getLast? = some Token.closeBracket ∧
            tokens.length > 3 ∧ rt.has_func id then
          (parseSegsWith (parseExpr fuel rt) (splitTopComas ((tokens.drop 2).dropLast))).map
            fun args => Expr.call id args
        else if tokens.length = 1 ∧ ¬ rt.has_func id then some (Expr.var id)
        else none
      | Token.openBracket =>
        if tokens.getLast? = some Token.closeBracket then
          parseExpr fuel rt ((tokens.drop 1).dropLast)
        else none
      | _ => none
termination_by (fuel, 0)
end

/-- parse of mathparse/mod.rs: tokenise, then parse the token list; the fuel
is an upper bound on the recursion depth reached on any input of this
length. -/
def parseStr (s : String) (rt : RuntimeM) : Option Expr :=
  (tokenize s).bind fun ts => parseExpr (4 * ts.length + 8) rt ts

/-- The intrinsic evaluation table of DefaultRuntime::eval_func. -/
noncomputable def defaultEvalFunc : String → List ℝ → Except MathError ℝ := fun name args =>
  match name with
  | "sin" =>
    if args.length ≠ 1 then .error (.invalidArgCount "sin" args.length 1)
    else .ok (Real.sin (args.headD 0))
  | "cos" =>
    if args.length ≠ 1 then .error (.invalidArgCount "cos" args.length 1)
    else .ok (Real.cos (args.headD 0))
  | "pow" =>
    if args.length ≠ 2 then .error (.invalidArgCount "pow" args.length 2)
    else .ok (Real.rpow (args.headD 0) (args.getD 1 0))
  | "sqrt" =>
    if args.length ≠ 1 then .error (.invalidArgCount "sqrt" args.length 1)
    else if args.headD 0 < 0 then .error (.math "Sqrt of negative")
    else .ok (Real.sqrt (args.headD 0))
  | "exp" =>
    if args.length ≠ 1 then .error (.invalidArgCount "exp" args.length 1)
    else .ok (Real.exp (args.headD 0))
  | "ln" =>
    if args.length ≠ 1 then .error (.invalidArgCount "ln" args.length 1)
    else if args.headD 0 < 0 then .error (.math "Log of negative")
    else .ok (Real.log (args.headD 0))
  | "abs" =>
    if args.length ≠ 1 then .error (.invalidArgCount "abs" args.length 1)
    else .ok |args.headD 0|
  | _ => .error (.undefinedFunction name)

/-- DefaultRuntime: a variable map (later bindings shadow earlier ones, as in
HashMap::from_iter) plus the closed set of intrinsic function names. -/
noncomputable def DefaultRuntime (vars : List (String × ℝ)) : RuntimeM where
  get_var name := ((vars.reverse).find? (fun p => p.1 == name)).map Prod.snd
  eval_func := defaultEvalFunc
  has_func name :=
    (["sin", "cos", "pow", "exp", "sqrt", "ln", "abs"] : List String).any (fun v => v == name)

/-- The AST produced for the string of scenario 1 of the spec. -/
def c3Ast : Expr :=
  Expr.minus (Expr.plus (Expr.num 122) (Expr.num 904))
    (Expr.multiply (Expr.num (231/10))
      (Expr.minus (Expr.num 72) (Expr.divide (Expr.var "x") (Expr.num 4))))

/-- The AST produced for the string of scenario 2 of the spec. -/
def c7Ast : Expr :=
  Expr.minus (Expr.multiply (Expr.num 2) (Expr.call "sin" [Expr.var "x"]))
    (Expr.multiply (Expr.num 3) (Expr.call "cos" [Expr.multiply (Expr.num 4) (Expr.var "x")]))

/-- The set of identifier tokens the runtime does not recognise as function
names. -/
def tokVars (rt : RuntimeM) (tokens : List Token) : Finset String :=
  (tokens.filterMap (fun t =>
    match t with
    | Token.identifier s => if rt.has_func s then none else some s
    | _ => none)).toFinset

/-- A runtime with no functions and no variables. -/
def noFuncRuntime : RuntimeM :=
  ⟨fun _ => none, fun n _ => .error (.undefinedFunction n), fun _ => false⟩

/-! ## Theorems: the claims and their supporting lemmas -/

/-! ## Lemmas about the table function -/

/-- On a strictly x-sorted table with at least two samples, the interval scan
reproduces every stored sample exactly. -/
theorem applyLoop_eq_of_mem :
    ∀ (rest : List (ℚ × ℚ)) (p : ℚ × ℚ),
      List.Pairwise (fun a b : ℚ × ℚ => a.1 < b.1) (p :: rest) →
      ∀ q ∈ p :: rest, rest ≠ [] → applyLoop p rest q.1 = some q.2 := by
  intro rest
  induction rest with
  | nil => intro p _ q _ hne; exact absurd rfl hne
  | cons r rest2 ih =>
    intro p hpw q hq _
    have hpr : p.1 < r.1 := (List.pairwise_cons.mp hpw).1 r (by simp)
    rcases List.mem_cons.mp hq with hq | hq
    · subst hq
      have hcond : q.1 ≤ q.1 ∧ r.1 ≥ q.1 := ⟨le_refl _, le_of_lt hpr⟩
      simp only [applyLoop, if_pos hcond, larp]
      have : (q.1 - q.1) / (r.1 - q.1) = 0 := by rw [sub_self, zero_div]
      rw [this]; ring_nf
    · rcases List.mem_cons.mp hq with hq | hq
      · subst hq
        have hcond : p.1 ≤ q.1 ∧ q.1 ≥ q.1 := ⟨le_of_lt hpr, le_refl _⟩
        simp only [applyLoop, if_pos hcond, larp]
        have hne : q.1 - p.1 ≠ 0 := sub_ne_zero.mpr (ne_of_gt hpr)
        rw [div_self hne]; ring_nf
      · have hrq : r.1 < q.1 := by
          have := (List.pairwise_cons.mp (List.pairwise_cons.mp hpw).2).1
          exact this q hq
        have hnc : ¬ (p.1 ≤ q.1 ∧ r.1 ≥ q.1) := by
          rintro ⟨_, h2⟩; exact absurd (lt_of_lt_of_le hrq h2) (lt_irrefl _)
        have hrest2 : rest2 ≠ [] := by rintro rfl; simp at hq
        simp only [applyLoop, if_neg hnc]
        exact ih r (List.pairwise_cons.mp hpw).2 q (by simp [hq]) hrest2

/-- The stored table of from_table is strictly sorted by x whenever the
x-coordinates of the input are pairwise distinct. -/
theorem from_table_pairwise_lt (P : List (ℚ × ℚ)) (hnd : (P.map Prod.fst).Nodup) :
    List.Pairwise (fun a b : ℚ × ℚ => a.1 < b.1)
      (TableFunction.from_table P).sorted_table := by
  haveI : IsTotal (ℚ × ℚ) (fun a b : ℚ × ℚ => a.1 ≤ b.1) := ⟨fun a b => le_total a.1 b.1⟩
  haveI : IsTrans (ℚ × ℚ) (fun a b : ℚ × ℚ => a.1 ≤ b.1) := ⟨fun _ _ _ => le_trans⟩
  have hle : List.Pairwise (fun a b : ℚ × ℚ => a.1 ≤ b.1)
      (P.insertionSort (fun a b : ℚ × ℚ => a.1 ≤ b.1)) :=
    List.sorted_insertionSort _ P
  have hperm := List.perm_insertionSort (fun a b : ℚ × ℚ => a.1 ≤ b.1) P
  have hnd2 : ((P.insertionSort (fun a b : ℚ × ℚ => a.1 ≤ b.1)).map Prod.fst).Nodup :=
    (hperm.map Prod.fst).nodup_iff.mpr hnd
  have hne : List.Pairwise (fun a b : ℚ × ℚ => a.1 ≠ b.1)
      (P.insertionSort (fun a b : ℚ × ℚ => a.1 ≤ b.1)) :=
    (List.pairwise_map.mp hnd2)
  have := hle.and hne
  exact this.imp (fun h => lt_of_le_of_ne h.1 h.2)

/-- C4 (amended): every sample of a table built from at least two points with
pairwise-distinct x-coordinates is reproduced exactly by apply; a table built
from a single point answers every query, including the stored x itself, with
point-out-of-bounds because its derived tolerance is 0. -/
theorem C4_table_sample_exactness :
    (∀ P : List (ℚ × ℚ), (P.map Prod.fst).Nodup → 2 ≤ P.length →
      ∀ q ∈ P, (TableFunction.from_table P).apply q.1 = .ok q.2) ∧
    (∀ x y : ℚ,
      (TableFunction.from_table [(x, y)]).apply x = .error (.pointOutOfBounds x x x)) := by
  constructor
  · intro P hnd hlen q hq
    have hpw := from_table_pairwise_lt P hnd
    have hperm := List.perm_insertionSort (fun a b : ℚ × ℚ => a.1 ≤ b.1) P
    have hmem : q ∈ (TableFunction.from_table P).sorted_table := by
      have : (TableFunction.from_table P).sorted_table =
          P.insertionSort (fun a b : ℚ × ℚ => a.1 ≤ b.1) := rfl
      rw [this]; exact hperm.mem_iff.mpr hq
    have hlen2 : 2 ≤ (TableFunction.from_table P).sorted_table.length := by
      have : (TableFunction.from_table P).sorted_table.length = P.length := hperm.length_eq
      omega
    rcases hst : (TableFunction.from_table P).sorted_table with _ | ⟨p, rest⟩
    · rw [hst] at hlen2; simp at hlen2
    · have hrest : rest ≠ [] := by
        rw [hst] at hlen2; simp at hlen2
        rintro rfl; simp at hlen2
      have hloop : applyLoop p rest q.1 = some q.2 := by
        apply applyLoop_eq_of_mem rest p (hst ▸ hpw) q (hst ▸ hmem) hrest
      simp only [TableFunction.apply, hst, hloop]
  · intro x y
    have hsing : (TableFunction.from_table [(x, y)]).sorted_table = [(x, y)] := rfl
    have heps : (TableFunction.from_table [(x, y)]).eps = 0 := rfl
    simp only [TableFunction.apply, hsing, heps, applyLoop, List.getLastD]
    rw [sub_self, abs_zero]
    simp

/-- C4 witness: on the concrete unsorted two-point table [(2,5),(0,1)] both
samples are reproduced, and a singleton table rejects its own point. -/
theorem C4_table_sample_exactness_witness :
    (TableFunction.from_table [((2:ℚ), 5), (0, 1)]).apply 0 = .ok 1 ∧
    (TableFunction.from_table [((2:ℚ), 5), (0, 1)]).apply 2 = .ok 5 ∧
    (TableFunction.from_table [((3:ℚ), 7)]).apply 3 = .error (.pointOutOfBounds 3 3 3) := by
  refine ⟨?_, ?_, C4_table_sample_exactness.2 3 7⟩
  · exact C4_table_sample_exactness.1 [((2:ℚ), 5), (0, 1)] (by decide) (by decide)
      (0, 1) (by simp)
  · exact C4_table_sample_exactness.1 [((2:ℚ), 5), (0, 1)] (by decide) (by decide)
      (2, 5) (by simp)

/-- C4 counterexample: the claim as stated fails for a one-point table; the
stored sample (0,1) is not reproduced, the query raises point-out-of-bounds. -/
theorem C4_single_point_counterexample :
    (TableFunction.from_table [((0:ℚ), 1)]).apply 0 =
      .error (.pointOutOfBounds 0 0 0) ∧
    (TableFunction.from_table [((0:ℚ), 1)]).apply 0 ≠ .ok 1 := by
  refine ⟨C4_table_sample_exactness.2 0 1, ?_⟩
  rw [C4_table_sample_exactness.2 0 1]
  intro h; exact Except.noConfusion h

/-- C10: from_table stores a permutation of the input arranged in
non-decreasing x order, to_table returns exactly that stored sequence, and
rebuilding from the stored sequence reproduces the table function verbatim
(so apply is a function of the stored sorted sequence alone). -/
theorem C10_from_table_sorted_perm :
    ∀ P : List (ℚ × ℚ),
      (TableFunction.from_table P).sorted_table.Perm P ∧
      List.Sorted (fun a b : ℚ × ℚ => a.1 ≤ b.1) (TableFunction.from_table P).sorted_table ∧
      (TableFunction.from_table P).to_table = (TableFunction.from_table P).sorted_table ∧
      TableFunction.from_table ((TableFunction.from_table P).to_table) =
        TableFunction.from_table P := by
  intro P
  haveI : IsTotal (ℚ × ℚ) (fun a b : ℚ × ℚ => a.1 ≤ b.1) := ⟨fun a b => le_total a.1 b.1⟩
  haveI : IsTrans (ℚ × ℚ) (fun a b : ℚ × ℚ => a.1 ≤ b.1) := ⟨fun _ _ _ => le_trans⟩
  have hsorted : List.Sorted (fun a b : ℚ × ℚ => a.1 ≤ b.1)
      (P.insertionSort (fun a b : ℚ × ℚ => a.1 ≤ b.1)) :=
    List.sorted_insertionSort _ P
  have hfix : (P.insertionSort (fun a b : ℚ × ℚ => a.1 ≤ b.1)).insertionSort
      (fun a b : ℚ × ℚ => a.1 ≤ b.1) = P.insertionSort (fun a b : ℚ × ℚ => a.1 ≤ b.1) :=
    hsorted.insertionSort_eq
  refine ⟨List.perm_insertionSort _ P, hsorted, rfl, ?_⟩
  show TableFunction.from_table (P.insertionSort (fun a b : ℚ × ℚ => a.1 ≤ b.1)) = _
  simp only [TableFunction.from_table, hfix]

/-- C1: the claim fails on the code.  For the two nodes (0,0), (1,1) the stored
interval coefficients are (a,b,c,d) = (0,0,3,-2), so the claimed value at
arg = 1/2 is d*arg^3 + c*arg^2 + b*arg + a = 1/2; the code instead evaluates
the cubic at the interval's right endpoint x = 1 and returns 1. -/
theorem C1_spline_eval_at_endpoint :
    (Spline.new [((0:ℚ), 0), (1, 1)]).coefs = [(0, 0, 3, -2)] ∧
    (Spline.new [((0:ℚ), 0), (1, 1)]).apply (1/2) = .ok 1 ∧
    ((-2 : ℚ) * (1/2) * (1/2) * (1/2) + 3 * (1/2) * (1/2) + 0 * (1/2) + 0 = 1/2) ∧
    ((1 : ℚ)/2 ≠ 1) := by
  refine ⟨?_, ?_, by norm_num, by norm_num⟩
  · with_unfolding_all rfl
  · with_unfolding_all rfl

/-- C2: the claim fails on the code.  With constant kernel 1, right side 1,
bounds 0..1, lambda = 1/2 and n = 2 (so h = 1), the spec recurrence gives
y_1 = (1 + 1/4) / (3/4) = 5/3, but the code multiplies the first trapezoid
term by lambda twice and returns y_1 = (1 + 1/8) / (3/4) = 3/2. -/
theorem C2_volterra_lambda_twice :
    volterra_2nd_system (fun _ _ => .ok 1) (fun _ => .ok 1) 0 1 (1/2) 2 =
      .ok (TableFunction.from_table [(0, 1), (1, 3/2)]) ∧
    getq (volterraSpecList (fun _ _ => 1) (fun _ => 1) 0 1 (1/2) 1) 1 = 5/3 ∧
    ((3 : ℚ)/2 ≠ 5/3) := by
  refine ⟨?_, ?_, by norm_num⟩
  · with_unfolding_all rfl
  · with_unfolding_all rfl

/-! ## Lemmas and claims about the conjugate gradient trace -/

/-- Folding additions equals the initial value plus a mapped sum. -/
theorem foldl_add_map_sum (l : List ℕ) (f : ℕ → ℚ) (init : ℚ) :
    l.foldl (fun acc j => acc + f j) init = init + (l.map f).sum := by
  induction l generalizing init with
  | nil => simp
  | cons a l ih => simp [ih, add_assoc]

/-- Indexing a map over a range. -/
theorem getq_range_map (m : ℕ) (g : ℕ → ℚ) (k : ℕ) :
    getq ((List.range m).map g) k = if k < m then g k else 0 := by
  by_cases h : k < m
  · rw [if_pos h, getq, List.getD_eq_getElem _ _ (by simpa using h)]
    simp
  · rw [if_neg h, getq, List.getD_eq_default]
    simpa using Nat.le_of_not_lt h

/-- A row-major flat index is within the square matrix. -/
theorem flat_index_lt (i j n : ℕ) (hi : i < n) (hj : j < n) : i * n + j < n * n := by
  calc i * n + j < i * n + n := by omega
    _ = (i + 1) * n := by ring
    _ ≤ n * n := Nat.mul_le_mul_right n (by omega)

/-- Entries of the scalar matrix. -/
theorem scalarMat_entry (c : ℚ) (n i j : ℕ) (hi : i < n) (hj : j < n) :
    getq (scalarMat c n) (i * n + j) = if i = j then c else 0 := by
  have hn : 0 < n := by omega
  rw [scalarMat, getq_range_map, if_pos (flat_index_lt i j n hi hj)]
  have hdiv : (i * n + j) / n = i := by
    rw [Nat.mul_comm i n, Nat.mul_add_div (by omega)]
    simp [Nat.div_eq_of_lt hj]
  have hmod : (i * n + j) % n = j := by
    rw [Nat.mul_comm i n, Nat.mul_add_mod]
    exact Nat.mod_eq_of_lt hj
  rw [hdiv, hmod]

/-- A sum over a range with a single surviving indicator term. -/
theorem sum_range_map_ite (n i : ℕ) (c : ℚ) (g : ℕ → ℚ) (hi : i < n) :
    ((List.range n).map (fun j => (if i = j then c else 0) * g j)).sum = c * g i := by
  induction n with
  | zero => omega
  | succ m ih =>
    rw [List.range_succ, List.map_append, List.sum_append]
    by_cases h : i < m
    · rw [ih h]
      simp [if_neg (by omega : ¬ i = m)]
    · have : i = m := by omega
      subst this
      have : ((List.range i).map (fun j => (if i = j then c else 0) * g j)).sum = 0 := by
        apply List.sum_eq_zero
        intro x hx
        simp only [List.mem_map, List.mem_range] at hx
        obtain ⟨j, hj, rfl⟩ := hx
        rw [if_neg (by omega)]
        ring
      rw [this]
      simp

/-- Applying the scalar matrix scales the indexed entries. -/
theorem matApply_scalar (c : ℚ) (n : ℕ) (x : List ℚ) :
    matApply (scalarMat c n) x n = (List.range n).map (fun i => c * getq x i) := by
  rw [matApply]
  apply List.map_congr_left
  intro i hi
  rw [List.mem_range] at hi
  rw [foldl_add_map_sum, zero_add]
  have : (List.range n).map (fun j => getq (scalarMat c n) (i * n + j) * getq x j) =
      (List.range n).map (fun j => (if i = j then c else 0) * getq x j) := by
    apply List.map_congr_left
    intro j hj
    rw [List.mem_range] at hj
    rw [scalarMat_entry c n i j hi hj]
  rw [this, sum_range_map_ite n i c _ hi]

/-- The residual for a scalar matrix, rowwise. -/
theorem discrepency_scalar (c : ℚ) (n : ℕ) (x f : List ℚ) :
    discrepency (scalarMat c n) x f n =
      (List.range n).map (fun i => -(getq f i) + c * getq x i) := by
  rw [discrepency]
  apply List.map_congr_left
  intro i hi
  rw [List.mem_range] at hi
  rw [foldl_add_map_sum]
  have : (List.range n).map (fun j => getq (scalarMat c n) (i * n + j) * getq x j) =
      (List.range n).map (fun j => (if i = j then c else 0) * getq x j) := by
    apply List.map_congr_left
    intro j hj
    rw [List.mem_range] at hj
    rw [scalarMat_entry c n i j hi hj]
  rw [this, sum_range_map_ite n i c _ hi]

/-- A dot product of a vector with itself is nonnegative. -/
theorem dotq_self_nonneg (v : List ℚ) : 0 ≤ dotq v v := by
  induction v with
  | nil => simp [dotq]
  | cons a l ih =>
    have : dotq (a :: l) (a :: l) = a * a + dotq l l := by simp [dotq]
    rw [this]
    nlinarith [mul_self_nonneg a]

/-- Scaling the left factor scales the dot product. -/
theorem dotq_map_mul_left (c : ℚ) (v w : List ℚ) :
    dotq (v.map (fun t => c * t)) w = c * dotq v w := by
  induction v generalizing w with
  | nil => simp [dotq]
  | cons a l ih =>
    cases w with
    | nil => simp [dotq]
    | cons b m =>
      have h1 : dotq ((a :: l).map (fun t => c * t)) (b :: m) =
          c * a * b + dotq (l.map (fun t => c * t)) m := by simp [dotq, mul_assoc]
      have h2 : dotq (a :: l) (b :: m) = a * b + dotq l m := by simp [dotq]
      rw [h1, h2, ih]
      ring

/-- A dot product with a zero vector vanishes. -/
theorem dotq_zero_left (v : List ℚ) (m : ℕ) : dotq (List.replicate m 0) v = 0 := by
  induction m generalizing v with
  | zero => simp [dotq]
  | succ k ih =>
    cases v with
    | nil => simp [dotq]
    | cons b w =>
      have : dotq (List.replicate (k+1) 0) (b :: w) = 0 * b + dotq (List.replicate k 0) w := by
        simp [dotq, List.replicate_succ]
      rw [this, ih]
      ring

/-- Reading a list back off by its indices. -/
theorem range_map_getq (v : List ℚ) (n : ℕ) (hv : v.length = n) :
    (List.range n).map (fun i => getq v i) = v := by
  apply List.ext_getElem
  · simp [hv]
  · intro i h1 h2
    simp only [List.getElem_map, List.getElem_range]
    rw [getq, List.getD_eq_getElem _ _ (by omega)]

/-- For A = c*I with unit preconditioner, a non-converged start is followed by
an exact bootstrap step: the recorded squared residuals are the initial one
and then 0. -/
theorem cg_scalar_loop_two (c eps : ℚ) (n k : ℕ) (x0 f : List ℚ)
    (hc : 0 < c) (heps : 0 < eps)
    (hne : ¬ dotq (discrepency (scalarMat c n) x0 f n)
      (discrepency (scalarMat c n) x0 f n) < eps * eps) :
    cgTrace (scalarMat c n) (scalarMat 1 n) x0 f n eps (k + 1) =
      [dotq (discrepency (scalarMat c n) x0 f n)
        (discrepency (scalarMat c n) x0 f n), 0] := by
  have hcne : c ≠ 0 := ne_of_gt hc
  set g : ℕ → ℚ := fun i => -(getq f i) + c * getq x0 i with hg
  have hr : discrepency (scalarMat c n) x0 f n = (List.range n).map g :=
    discrepency_scalar c n x0 f
  set r : List ℚ := (List.range n).map g with hrdef
  rw [hr] at hne
  have hrlen : r.length = n := by simp [hrdef]
  have hgetr : ∀ i < n, getq r i = g i := by
    intro i hi
    rw [hrdef, getq_range_map, if_pos hi]
  have he0pos : 0 < dotq r r := lt_of_lt_of_le (mul_pos heps heps) (not_lt.mp hne)
  have he0ne : dotq r r ≠ 0 := ne_of_gt he0pos
  have hwk : matApply (scalarMat 1 n) r n = r := by
    rw [matApply_scalar]
    have h1 : (List.range n).map (fun i => 1 * getq r i) =
        (List.range n).map (fun i => getq r i) := by simp
    rw [h1, range_map_getq r n hrlen]
  have hawk : matApply (scalarMat c n) r n = r.map (fun t => c * t) := by
    rw [matApply_scalar]
    apply List.ext_getElem
    · simp [hrlen]
    · intro i h1 h2
      simp only [List.getElem_map, List.getElem_range]
      rw [getq, List.getD_eq_getElem _ _ (by simp at h1 ⊢; omega)]
  have hdaw : dotq (r.map (fun t => c * t)) r = c * dotq r r := dotq_map_mul_left c r r
  have htau : dotq r r / (c * dotq r r) = 1 / c := by
    field_simp
    ring
  have hzero : discrepency (scalarMat c n)
      ((List.range n).map (fun i => getq x0 i - 1 / c * getq r i)) f n =
      List.replicate n 0 := by
    rw [discrepency_scalar]
    have hcong : ∀ i ∈ List.range n,
        -(getq f i) + c * getq ((List.range n).map (fun i => getq x0 i - 1 / c * getq r i)) i
          = (fun _ : ℕ => (0:ℚ)) i := by
      intro i hi
      rw [List.mem_range] at hi
      rw [getq_range_map, if_pos hi, hgetr i hi, hg]
      field_simp
      ring
    rw [List.map_congr_left hcong, List.map_const', List.length_range]
  simp only [cgTrace]
  rw [hr, if_neg hne, hwk, hawk, hdaw, htau, cgLoopTrace, hzero, dotq_zero_left,
    if_pos (mul_pos heps heps)]

/-- C6 (amended): with the unit preconditioner and A a positive scalar
multiple of the identity, and a positive tolerance, the squared residuals
recorded at the top of the iterations of conjugate_gradient_method are
monotone non-increasing until the method stops. -/
theorem C6_cg_residual_monotone_scalar : ∀ (c eps : ℚ) (n fuel : ℕ) (x0 f : List ℚ),
    0 < c → 0 < eps → x0.length = n → f.length = n →
    List.Chain' (fun p q => q ≤ p)
      (cgTrace (scalarMat c n) (scalarMat 1 n) x0 f n eps fuel) := by
  intro c eps n fuel x0 f hc heps hx0 hf
  by_cases hlt : dotq (discrepency (scalarMat c n) x0 f n)
      (discrepency (scalarMat c n) x0 f n) < eps * eps
  · simp only [cgTrace]
    rw [if_pos hlt]
    exact List.chain'_singleton _
  · cases fuel with
    | zero =>
      simp only [cgTrace]
      rw [if_neg hlt]
      simp only [cgLoopTrace]
      exact List.chain'_singleton _
    | succ k =>
      rw [cg_scalar_loop_two c eps n k x0 f hc heps hlt]
      exact List.chain'_cons.mpr ⟨dotq_self_nonneg _, List.chain'_singleton _⟩

/-- The diagonal matrix diag(1,10) is positive definite. -/
theorem cg_counter_posdef : matPosDef [1, 0, 0, 10] 2 := by
  intro x hlen hnz
  obtain ⟨a, b, rfl⟩ := List.length_eq_two.mp hlen
  have h2 : List.range 2 = [0, 1] := rfl
  have hev : dotq [a, b] (matApply [1, 0, 0, 10] [a, b] 2) = a * a + 10 * (b * b) := by
    simp [dotq, matApply, getq, h2]
    ring
  rw [hev]
  rcases hnz with ⟨i, hi, hne⟩
  interval_cases i
  · have ha : a ≠ 0 := by simpa [getq] using hne
    nlinarith [mul_self_nonneg b, mul_self_pos.mpr ha]
  · have hb : b ≠ 0 := by simpa [getq] using hne
    nlinarith [mul_self_nonneg a, mul_self_pos.mpr hb]

/-- The diagonal matrix diag(1,10) is symmetric. -/
theorem cg_counter_symm : matSymm [1, 0, 0, 10] 2 := by
  intro i hi j hj
  interval_cases i <;> interval_cases j <;> rfl

/-- C6 counterexample: for the symmetric positive-definite matrix diag(1,10)
with unit preconditioner, zero start and right side (-3,-1), the squared
residual rises from 10 to 7290/361 at the first loop iteration, so the
residual sequence of conjugate_gradient_method is not monotone
non-increasing for general SPD matrices. -/
theorem C6_residual_counterexample :
    matSymm [1, 0, 0, 10] 2 ∧ matPosDef [1, 0, 0, 10] 2 ∧
    cgTrace [1, 0, 0, 10] [1, 0, 0, 1] [0, 0] [-3, -1] 2 (1/1000) 5 =
      [10, 7290/361, 0] ∧
    ¬ List.Chain' (fun p q : ℚ => q ≤ p)
      (cgTrace [1, 0, 0, 10] [1, 0, 0, 1] [0, 0] [-3, -1] 2 (1/1000) 5) := by
  have htr : cgTrace [1, 0, 0, 10] [1, 0, 0, 1] [0, 0] [-3, -1] 2 (1/1000) 5 =
      [10, 7290/361, 0] := by with_unfolding_all rfl
  refine ⟨cg_counter_symm, cg_counter_posdef, htr, ?_⟩
  rw [htr]
  intro h
  have := (List.chain'_cons.mp h).1
  norm_num at this

/-- C6 witness: the amended statement at the concrete data A = 2*I on one
dimension, x0 = [0], f = [1], eps = 1, three loop iterations. -/
theorem C6_cg_residual_monotone_scalar_witness :
    List.Chain' (fun p q => q ≤ p)
      (cgTrace (scalarMat 2 1) (scalarMat 1 1) [0] [1] 1 1 3) :=
  C6_cg_residual_monotone_scalar 2 1 1 3 [0] [1] (by norm_num) (by norm_num) rfl rfl

/-! ## Lemmas and claims about golden-section search -/

/-- One golden-section update keeps the cached endpoint values equal to the
values of the objective. -/
theorem goldenStep_invariant (f : ℝ → Except String ℝ) (st : GoldenState)
    (x1 fx1 x2 fx2 : ℝ) (ha : f st.a = .ok st.fa) (hb : f st.b = .ok st.fb)
    (h1 : f x1 = .ok fx1) (h2 : f x2 = .ok fx2) :
    f (goldenStep st x1 fx1 x2 fx2).a = .ok (goldenStep st x1 fx1 x2 fx2).fa ∧
    f (goldenStep st x1 fx1 x2 fx2).b = .ok (goldenStep st x1 fx1 x2 fx2).fb := by
  simp only [goldenStep]
  split_ifs <;> simp_all

/-- The golden-section loop keeps the cached endpoint values equal to the
values of the objective. -/
theorem goldenLoop_invariant (f : ℝ → Except String ℝ) (w : ℝ) :
    ∀ (fuel : ℕ) (st st' : GoldenState), f st.a = .ok st.fa → f st.b = .ok st.fb →
      goldenLoop f w fuel st = .success st' →
      f st'.a = .ok st'.fa ∧ f st'.b = .ok st'.fb := by
  intro fuel
  induction fuel with
  | zero => intro st st' _ _ h; simp [goldenLoop] at h
  | succ k ih =>
    intro st st' ha hb h
    rw [goldenLoop] at h
    by_cases hw : |st.a - st.b| < w
    · rw [if_pos hw] at h
      injection h with h
      subst h
      exact ⟨ha, hb⟩
    · rw [if_neg hw] at h
      dsimp only [] at h
      split at h
      · simp at h
      · rename_i fx1 hfx1
        split at h
        · simp at h
        · rename_i fx2 hfx2
          have hstep := goldenStep_invariant f st _ _ _ _ ha hb hfx1 hfx2
          exact ih _ st' hstep.1 hstep.2 h

/-- C5 (amended): whenever golden_ratio_min succeeds, the returned pair is
(a, f(a)) for the left endpoint a of the final bracket, and the cached value
at the right endpoint is also a genuine value of f; the claim that f(a) is
less than or equal to both endpoint values does not survive (see the
counterexample). -/
theorem C5_golden_returns_left_endpoint :
    ∀ (lo hi w : ℝ) (f : ℝ → Except String ℝ) (fuel : ℕ) (m : Minimum1d),
      golden_ratio_min lo hi f w fuel = .ok m →
      ∃ fa fb st, f (min lo hi) = .ok fa ∧ f (max lo hi) = .ok fb ∧
        goldenLoop f w fuel ⟨min lo hi, fa, max lo hi, fb⟩ = .success st ∧
        m.x = st.a ∧ m.y = st.fa ∧ f st.a = .ok st.fa ∧ f st.b = .ok st.fb := by
  intro lo hi w f fuel m h
  rw [golden_ratio_min] at h
  split at h
  · simp at h
  · rename_i fa hfa
    split at h
    · simp at h
    · rename_i fb hfb
      split at h
      · rename_i st hloop
        injection h with h
        subst h
        have hinv := goldenLoop_invariant f w fuel ⟨min lo hi, fa, max lo hi, fb⟩ st
          hfa hfb hloop
        exact ⟨fa, fb, st, hfa, hfb, hloop, rfl, rfl, hinv.1, hinv.2⟩
      · simp at h
      · simp at h

/-- C5 counterexample: a step function on the unit bracket with a loose width
tolerance succeeds immediately and returns (0, f(0)) = (0, 1), yet the right
endpoint of the returned bracket has the smaller value f(1) = 0, refuting
f(a) being at most both endpoint values. -/
theorem C5_golden_counterexample :
    golden_ratio_min 0 1 goldenCounterF 2 1 = .ok ⟨0, 1⟩ ∧
    goldenLoop goldenCounterF 2 1 ⟨0, 1, 1, 0⟩ = .success ⟨0, 1, 1, 0⟩ ∧
    goldenCounterF 1 = .ok 0 ∧
    ¬ ((1 : ℝ) ≤ 0) := by
  have hmin : min (0:ℝ) 1 = 0 := by norm_num
  have hmax : max (0:ℝ) 1 = 1 := by norm_num
  have hf0 : goldenCounterF 0 = .ok 1 := by
    rw [goldenCounterF]
    rw [if_pos (by norm_num : (0:ℝ) < 1/2)]
  have hf1 : goldenCounterF 1 = .ok 0 := by
    rw [goldenCounterF]
    rw [if_neg (by norm_num : ¬ (1:ℝ) < 1/2)]
  have hloop : goldenLoop goldenCounterF 2 1 ⟨0, 1, 1, 0⟩ = .success ⟨0, 1, 1, 0⟩ := by
    rw [goldenLoop]
    rw [if_pos]
    norm_num
  refine ⟨?_, hloop, hf1, by norm_num⟩
  rw [golden_ratio_min, hmin, hmax, hf0, hf1]
  dsimp only []
  rw [hloop]

/-- C5 witness: the amended statement instantiated on the constant objective
1 over the bracket 0..1 with width tolerance 2 and one iteration. -/
theorem C5_golden_returns_left_endpoint_witness :
    ∃ fa fb st,
      (fun _ : ℝ => (Except.ok (1:ℝ) : Except String ℝ)) (min (0:ℝ) 1) = .ok fa ∧
      (fun _ : ℝ => (Except.ok (1:ℝ) : Except String ℝ)) (max (0:ℝ) 1) = .ok fb ∧
      goldenLoop (fun _ : ℝ => (Except.ok (1:ℝ) : Except String ℝ)) 2 1
        ⟨min (0:ℝ) 1, fa, max (0:ℝ) 1, fb⟩ = .success st ∧
      (Minimum1d.mk 0 1).x = st.a ∧ (Minimum1d.mk 0 1).y = st.fa ∧
      (fun _ : ℝ => (Except.ok (1:ℝ) : Except String ℝ)) st.a = .ok st.fa ∧
      (fun _ : ℝ => (Except.ok (1:ℝ) : Except String ℝ)) st.b = .ok st.fb := by
  apply C5_golden_returns_left_endpoint 0 1 2 (fun _ => .ok 1) 1 ⟨0, 1⟩
  rw [golden_ratio_min]
  have hmin : min (0:ℝ) 1 = 0 := by norm_num
  have hmax : max (0:ℝ) 1 = 1 := by norm_num
  rw [hmin, hmax]
  dsimp only []
  rw [show goldenLoop (fun _ : ℝ => (Except.ok (1:ℝ) : Except String ℝ)) 2 1 ⟨0, 1, 1, 1⟩ =
    .success ⟨0, 1, 1, 1⟩ from by rw [goldenLoop]; rw [if_pos]; norm_num]

/-! ## Claims about the curvilinear-triangle area routine -/

/-- C9: the root-eps-too-big signal never escapes calc_area.  The outer loop
can only return ok, function-error or root-error (both as non-rootEpsTooBig
payloads) or iters-ended; whenever the triangle step raises root-eps-too-big
the loop restarts with the root tolerance multiplied by 0.1. -/
theorem C9_area_eps_internal :
    (∀ (fa fb fc : ℚ → Except String ℚ) (ab ac bc : ℚ × ℚ)
        (area_eps : ℚ) (inner_fuel fuel : ℕ) (root_eps : ℚ),
      calcAreaLoop fa fb fc ab ac bc area_eps inner_fuel fuel root_eps ≠
        .error .rootEpsTooBig) ∧
    (∀ (fa fb fc : ℚ → Except String ℚ) (ab ac bc : ℚ × ℚ)
        (area_eps : ℚ) (inner_fuel fuel : ℕ) (root_eps : ℚ),
      areaOnce fa fb fc ab ac bc inner_fuel area_eps root_eps = .error .rootEpsTooBig →
      calcAreaLoop fa fb fc ab ac bc area_eps inner_fuel (fuel + 1) root_eps =
        calcAreaLoop fa fb fc ab ac bc area_eps inner_fuel fuel (root_eps * 0.1)) ∧
    (∀ (fa fb fc : ℚ → Except String ℚ) (ab ac bc : ℚ × ℚ)
        (root_start_eps area_eps : ℚ) (max_iter_count : ℕ),
      calc_area fa fb fc ab ac bc root_start_eps area_eps max_iter_count ≠
        .error .rootEpsTooBig) := by
  have main : ∀ (fa fb fc : ℚ → Except String ℚ) (ab ac bc : ℚ × ℚ)
      (area_eps : ℚ) (inner_fuel fuel : ℕ) (root_eps : ℚ),
      calcAreaLoop fa fb fc ab ac bc area_eps inner_fuel fuel root_eps ≠
        .error .rootEpsTooBig := by
    intro fa fb fc ab ac bc area_eps inner_fuel fuel
    induction fuel with
    | zero => intro root_eps h; rw [calcAreaLoop] at h; simp at h
    | succ k ih =>
      intro root_eps h
      rw [calcAreaLoop] at h
      split at h
      · simp at h
      · rename_i e _
        split at h
        · exact ih _ h
        · rename_i hguard
          injection h with h
          exact hguard (Or.inl h)
  refine ⟨main, ?_, ?_⟩
  · intro fa fb fc ab ac bc area_eps inner_fuel fuel root_eps h
    rw [calcAreaLoop, h]
    simp
  · intro fa fb fc ab ac bc rse ae mic
    exact main fa fb fc ab ac bc ae mic mic rse

/-- C9 witness: three concrete lines whose Simpson estimates differ by more
than the (negative) area tolerance, so the triangle step raises
root-eps-too-big; the loop equation and the non-surfacing statement are
instantiated there. -/
theorem C9_area_eps_internal_witness :
    areaOnce (fun _ => .ok 0) (fun x => .ok x) (fun x => .ok (2*x - 2))
      (-1, 1) (0, 2) (0, 4) 5 (-1) (1/100) = .error .rootEpsTooBig ∧
    calcAreaLoop (fun _ => .ok 0) (fun x => .ok x) (fun x => .ok (2*x - 2))
      (-1, 1) (0, 2) (0, 4) (-1) 5 6 (1/100) =
      calcAreaLoop (fun _ => .ok 0) (fun x => .ok x) (fun x => .ok (2*x - 2))
        (-1, 1) (0, 2) (0, 4) (-1) 5 5 (1/100 * 0.1) ∧
    calc_area (fun _ => .ok 0) (fun x => .ok x) (fun x => .ok (2*x - 2))
      (-1, 1) (0, 2) (0, 4) (1/100) (-1) 5 ≠ .error .rootEpsTooBig := by
  have h : areaOnce (fun _ => .ok 0) (fun x => .ok x) (fun x => .ok (2*x - 2))
      (-1, 1) (0, 2) (0, 4) 5 (-1) (1/100) = .error .rootEpsTooBig := by
    with_unfolding_all rfl
  exact ⟨h, C9_area_eps_internal.2.1 _ _ _ _ _ _ _ 5 5 _ h,
    C9_area_eps_internal.2.2 _ _ _ _ _ _ _ _ 5⟩

/-- Scenario 1 parses to the expected left-associated tree. -/
theorem c3parse : parseStr "122+904-23.1*(72-x/4)" (DefaultRuntime []) = some c3Ast := by
  with_unfolding_all rfl

/-- Evaluation of a numeric literal. -/
theorem evalE_num (rt : RuntimeM) (q : ℚ) : evalE rt (Expr.num q) = .ok (q : ℝ) := by
  simp [evalE]

/-- Evaluation of a bound variable. -/
theorem evalE_var (rt : RuntimeM) (s : String) (v : ℝ) (h : rt.get_var s = some v) :
    evalE rt (Expr.var s) = .ok v := by
  simp [evalE, h]

/-- Evaluation of a sum node from the values of its children. -/
theorem evalE_plus (rt : RuntimeM) {l r : Expr} {a b : ℝ}
    (hl : evalE rt l = .ok a) (hr : evalE rt r = .ok b) :
    evalE rt (Expr.plus l r) = .ok (a + b) := by
  simp [evalE, hl, hr, Except.bind, Except.map]

/-- Evaluation of a difference node from the values of its children. -/
theorem evalE_minus (rt : RuntimeM) {l r : Expr} {a b : ℝ}
    (hl : evalE rt l = .ok a) (hr : evalE rt r = .ok b) :
    evalE rt (Expr.minus l r) = .ok (a - b) := by
  simp [evalE, hl, hr, Except.bind, Except.map]

/-- Evaluation of a product node from the values of its children. -/
theorem evalE_multiply (rt : RuntimeM) {l r : Expr} {a b : ℝ}
    (hl : evalE rt l = .ok a) (hr : evalE rt r = .ok b) :
    evalE rt (Expr.multiply l r) = .ok (a * b) := by
  simp [evalE, hl, hr, Except.bind, Except.map]

/-- Evaluation of a quotient node with a non-zero denominator. -/
theorem evalE_divide (rt : RuntimeM) {l r : Expr} {a b : ℝ}
    (hl : evalE rt l = .ok a) (hr : evalE rt r = .ok b) (hb : b ≠ 0) :
    evalE rt (Expr.divide l r) = .ok (a / b) := by
  simp [evalE, hl, hr, Except.bind, hb]

/-- Evaluation of a call node hands the argument values to the runtime. -/
theorem evalE_call (rt : RuntimeM) (name : String) {args : List Expr} {vs : List ℝ}
    (h : evalArgs rt args = .ok vs) :
    evalE rt (Expr.call name args) = rt.eval_func name vs := by
  simp [evalE, h, Except.bind]

/-- Evaluation of an empty argument list. -/
theorem evalArgs_nil (rt : RuntimeM) : evalArgs rt [] = .ok [] := by
  simp [evalArgs]

/-- Evaluation of a non-empty argument list from its members' values. -/
theorem evalArgs_cons (rt : RuntimeM) {e : Expr} {rest : List Expr} {v : ℝ} {vs : List ℝ}
    (he : evalE rt e = .ok v) (hrest : evalArgs rt rest = .ok vs) :
    evalArgs rt (e :: rest) = .ok (v :: vs) := by
  simp [evalArgs, he, hrest, Except.bind, Except.map]

/-- The sin intrinsic of the default runtime on a single argument. -/
theorem defaultEvalFunc_sin (v : ℝ) : defaultEvalFunc "sin" [v] = .ok (Real.sin v) := by
  simp [defaultEvalFunc]

/-- The cos intrinsic of the default runtime on a single argument. -/
theorem defaultEvalFunc_cos (v : ℝ) : defaultEvalFunc "cos" [v] = .ok (Real.cos v) := by
  simp [defaultEvalFunc]

/-- Scenario 1 evaluates with x = 8 to exactly -591. -/
theorem c3eval : evalE (DefaultRuntime [("x", 8)]) c3Ast = .ok (-591) := by
  have hvar : (DefaultRuntime [("x", 8)]).get_var "x" = some 8 := by
    simp [DefaultRuntime]
  have h := evalE_minus (DefaultRuntime [("x", 8)])
    (evalE_plus _ (evalE_num _ 122) (evalE_num _ 904))
    (evalE_multiply _ (evalE_num _ (231/10))
      (evalE_minus _ (evalE_num _ 72)
        (evalE_divide _ (evalE_var _ "x" 8 hvar) (evalE_num _ 4) (by norm_num))))
  rw [show c3Ast = Expr.minus (Expr.plus (Expr.num 122) (Expr.num 904))
      (Expr.multiply (Expr.num (231/10))
        (Expr.minus (Expr.num 72) (Expr.divide (Expr.var "x") (Expr.num 4)))) from rfl, h]
  push_cast
  norm_num

/-- C3 (amended): parsing the scenario string with the default runtime and
evaluating at x = 8 succeeds and returns exactly -591.0, which is the exact
value of 122 + 904 - 23.1 * (72 - 8/4); the spec's stated -592.0 is an
arithmetic slip. -/
theorem C3_expression_basics :
    parseStr "122+904-23.1*(72-x/4)" (DefaultRuntime []) = some c3Ast ∧
    evalE (DefaultRuntime [("x", 8)]) c3Ast = .ok (-591) ∧
    ((-591 : ℝ) = 122 + 904 - 23.1 * (72 - 8/4)) := by
  refine ⟨c3parse, c3eval, by norm_num⟩

/-- C3 counterexample: the evaluation result is not -592.0 as the claim
states. -/
theorem C3_expression_basics_counterexample :
    parseStr "122+904-23.1*(72-x/4)" (DefaultRuntime []) = some c3Ast ∧
    evalE (DefaultRuntime [("x", 8)]) c3Ast ≠ .ok (-592) := by
  refine ⟨c3parse, ?_⟩
  rw [c3eval]
  intro h
  injection h with h
  norm_num at h

/-- Scenario 2 parses with both implicit multiplications resolved. -/
theorem c7parse : parseStr "2sin(x)-3cos(4x)" (DefaultRuntime []) = some c7Ast := by
  with_unfolding_all rfl

/-- Scenario 2 evaluates with x = 2 to exactly 2 sin 2 - 3 cos 8. -/
theorem c7eval : evalE (DefaultRuntime [("x", 2)]) c7Ast =
    .ok (2 * Real.sin 2 - 3 * Real.cos 8) := by
  have hvar : (DefaultRuntime [("x", 2)]).get_var "x" = some 2 := by
    simp [DefaultRuntime]
  have hef : (DefaultRuntime [("x", 2)]).eval_func = defaultEvalFunc := rfl
  have hsin : evalE (DefaultRuntime [("x", 2)]) (Expr.call "sin" [Expr.var "x"]) =
      .ok (Real.sin 2) := by
    rw [evalE_call _ "sin" (evalArgs_cons _ (evalE_var _ "x" 2 hvar) (evalArgs_nil _)), hef,
      defaultEvalFunc_sin]
  have hcos : evalE (DefaultRuntime [("x", 2)])
      (Expr.call "cos" [Expr.multiply (Expr.num 4) (Expr.var "x")]) =
      .ok (Real.cos (((4 : ℚ) : ℝ) * 2)) := by
    rw [evalE_call _ "cos" (evalArgs_cons _
        (evalE_multiply _ (evalE_num _ 4) (evalE_var _ "x" 2 hvar)) (evalArgs_nil _)), hef,
      defaultEvalFunc_cos]
  have h := evalE_minus (DefaultRuntime [("x", 2)])
    (evalE_multiply _ (evalE_num _ 2) hsin)
    (evalE_multiply _ (evalE_num _ 3) hcos)
  rw [show c7Ast = Expr.minus (Expr.multiply (Expr.num 2) (Expr.call "sin" [Expr.var "x"]))
      (Expr.multiply (Expr.num 3)
        (Expr.call "cos" [Expr.multiply (Expr.num 4) (Expr.var "x")])) from rfl, h]
  push_cast
  norm_num

/-- C7: parsing the implicit-multiplication string with the default runtime
succeeds, and evaluating at x = 2 returns a value within 1e-12 of
2 sin 2 - 3 cos 8 (in the real model the value is exact). -/
theorem C7_implicit_multiplication :
    parseStr "2sin(x)-3cos(4x)" (DefaultRuntime []) = some c7Ast ∧
    ∃ v, evalE (DefaultRuntime [("x", 2)]) c7Ast = .ok v ∧
      |v - (2 * Real.sin 2 - 3 * Real.cos 8)| ≤ 1e-12 := by
  refine ⟨c7parse, 2 * Real.sin 2 - 3 * Real.cos 8, c7eval, ?_⟩
  rw [sub_self, abs_zero]
  norm_num

/-- tokVars distributes over concatenation. -/
theorem tokVars_append (rt : RuntimeM) (l r : List Token) :
    tokVars rt (l ++ r) = tokVars rt l ∪ tokVars rt r := by
  simp [tokVars, List.filterMap_append]

/-- The fold of query_vars over an argument list is the union of the
members. -/
theorem exprListVarsAux_eq :
    ∀ (args : List Expr) (acc : Finset String),
      exprListVarsAux args acc = acc ∪ args.foldr (fun e s => e.queryVars ∪ s) ∅ := by
  intro args
  induction args with
  | nil => intro acc; simp [exprListVarsAux]
  | cons e rest ih =>
    intro acc
    rw [exprListVarsAux, ih]
    simp [Finset.union_assoc]

/-- Segment-wise parsing preserves the variable accounting. -/
theorem parseSegsWith_vars (rt : RuntimeM) (pe : List Token → Option Expr)
    (hpe : ∀ s e, pe s = some e → e.queryVars = tokVars rt s) :
    ∀ (segs : List (List Token)) (args : List Expr),
      parseSegsWith pe segs = some args →
      args.foldr (fun e s => e.queryVars ∪ s) ∅ =
        segs.foldr (fun sg s => tokVars rt sg ∪ s) ∅ := by
  intro segs
  induction segs with
  | nil =>
    intro args h
    rw [parseSegsWith] at h
    injection h with h
    subst h
    rfl
  | cons s rest ih =>
    intro args h
    rw [parseSegsWith] at h
    obtain ⟨e, he, hmap⟩ := Option.bind_eq_some.mp h
    obtain ⟨es, hes, rfl⟩ := Option.map_eq_some'.mp hmap
    simp only [List.foldr_cons]
    rw [hpe s e he, ih es hes]

/-- Splitting at top-level commas loses only commas, hence no variables. -/
theorem splitTopComas_vars (rt : RuntimeM) :
    ∀ (tokens : List Token),
      (splitTopComas tokens).foldr (fun sg s => tokVars rt sg ∪ s) ∅ =
        tokVars rt tokens := by
  have aux : ∀ (n : ℕ) (tokens : List Token), tokens.length = n →
      (splitTopComas tokens).foldr (fun sg s => tokVars rt sg ∪ s) ∅ =
        tokVars rt tokens := by
    intro n
    induction n using Nat.strong_induction_on with
    | _ n ih =>
      intro tokens hlen
      rw [splitTopComas]
      split
      · simp
      · rename_i seg r hsplit
        obtain ⟨mid, hseg, hrest⟩ := splitFirstComa_spec tokens 0 [] seg r hsplit
        simp only [List.nil_append] at hseg
        subst hseg
        have hlt : r.length < n := by
          rw [← hlen, hrest]
          simp
          omega
        have hr := ih r.length hlt r rfl
        simp only [List.foldr_cons, hr, hrest]
        rw [tokVars_append]
        have hcoma : tokVars rt (Token.coma :: r) = tokVars rt r := by
          simp [tokVars, List.filterMap_cons]
        rw [hcoma]
  intro tokens
  exact aux tokens.length tokens rfl

/-- A successful positional lookup splits the token list around the hit. -/
theorem split_at_get {tokens : List Token} {i : ℕ} {t : Token}
    (h : tokens.get? i = some t) :
    tokens = tokens.take i ++ t :: tokens.drop (i + 1) := by
  obtain ⟨hlt, hget⟩ := List.get?_eq_some.mp h
  conv_lhs => rw [← List.take_append_drop i tokens]
  congr 1
  rw [List.drop_eq_getElem_cons hlt]
  simp [hget.symm, List.get_eq_getElem]

/-! ## The variable-set claim for the parser -/

/-- Unfolding a successful or_else. -/
theorem optOr_eq_some {α : Type} {a b : Option α} {x : α} (h : optOr a b = some x) :
    a = some x ∨ (a = none ∧ b = some x) := by
  cases a with
  | none => exact Or.inr ⟨rfl, h⟩
  | some y => exact Or.inl h

/-- A leading plus token contributes no variables. -/
theorem tokVars_plus_cons (rt : RuntimeM) (l : List Token) :
    tokVars rt (Token.plus :: l) = tokVars rt l := by
  simp [tokVars, List.filterMap_cons]

/-- Every successful parse at any fuel accounts for exactly the identifier
tokens the runtime does not know as functions, at all four grammar levels. -/
theorem parseVarsAll : ∀ fuel : ℕ,
    (∀ rt tokens e, parseExpr fuel rt tokens = some e → e.queryVars = tokVars rt tokens) ∧
    (∀ rt tokens e, parseTerm fuel rt tokens = some e → e.queryVars = tokVars rt tokens) ∧
    (∀ rt tokens e, parseImplicitMul fuel rt tokens = some e → e.queryVars = tokVars rt tokens) ∧
    (∀ rt tokens e, parseFactor fuel rt tokens = some e → e.queryVars = tokVars rt tokens) := by
  intro fuel
  induction fuel with
  | zero =>
    refine ⟨?_, ?_, ?_, ?_⟩
    · intro rt tokens e h; rw [parseExpr] at h; simp at h
    · intro rt tokens e h; rw [parseTerm] at h; simp at h
    · intro rt tokens e h; rw [parseImplicitMul] at h; simp at h
    · intro rt tokens e h; rw [parseFactor] at h; simp at h
  | succ fuel ih =>
    obtain ⟨ihE, ihT, ihI, ihF⟩ := ih
    refine ⟨?_, ?_, ?_, ?_⟩
    · -- parseExpr
      intro rt tokens e h
      rw [parseExpr] at h
      rcases optOr_eq_some h with hscan | ⟨-, hterm⟩
      · obtain ⟨op, hopmem, hinner⟩ := List.exists_of_findSome?_eq_some hscan
        obtain ⟨ix, _, hit⟩ := List.exists_of_findSome?_eq_some hinner
        have hopc : op = Token.plus ∨ op = Token.minus := by simpa using hopmem
        rcases hopc with rfl | rfl
        · by_cases hop : tokens.get? ix = some Token.plus
          · rw [if_pos hop] at hit
            obtain ⟨l, hl, hmap⟩ := Option.bind_eq_some.mp hit
            obtain ⟨r, hr, rfl⟩ := Option.map_eq_some'.mp hmap
            have hvL := ihE rt _ l hl
            have hvR := ihT rt _ r hr
            have hq : (Expr.plus l r).queryVars = l.queryVars ∪ r.queryVars := by
              simp [Expr.queryVars]
            rw [hq, hvL, hvR]
            conv_rhs => rw [split_at_get hop]
            rw [tokVars_append, tokVars_plus_cons]
          · rw [if_neg hop] at hit; simp at hit
        · by_cases hop : tokens.get? ix = some Token.minus
          · rw [if_pos hop] at hit
            obtain ⟨l, hl, hmap⟩ := Option.bind_eq_some.mp hit
            obtain ⟨r, hr, rfl⟩ := Option.map_eq_some'.mp hmap
            have hvL := ihE rt _ l hl
            have hvR := ihT rt _ r hr
            have hq : (Expr.minus l r).queryVars = l.queryVars ∪ r.queryVars := by
              simp [Expr.queryVars]
            rw [hq, hvL, hvR]
            conv_rhs => rw [split_at_get hop]
            rw [tokVars_append]
            have : tokVars rt (Token.minus :: tokens.drop (ix + 1)) =
                tokVars rt (tokens.drop (ix + 1)) := by
              simp [tokVars, List.filterMap_cons]
            rw [this]
          · rw [if_neg hop] at hit; simp at hit
      · exact ihT rt tokens e hterm
    · -- parseTerm
      intro rt tokens e h
      rw [parseTerm] at h
      rcases optOr_eq_some h with hscan | ⟨-, h2⟩
      · obtain ⟨op, hopmem, hinner⟩ := List.exists_of_findSome?_eq_some hscan
        obtain ⟨ix, _, hit⟩ := List.exists_of_findSome?_eq_some hinner
        have hopc : op = Token.multiply ∨ op = Token.divide := by simpa using hopmem
        rcases hopc with rfl | rfl
        · by_cases hop : tokens.get? ix = some Token.multiply
          · rw [if_pos hop] at hit
            obtain ⟨l, hl, hmap⟩ := Option.bind_eq_some.mp hit
            obtain ⟨r, hr, rfl⟩ := Option.map_eq_some'.mp hmap
            have hvL := ihT rt _ l hl
            have hvR := ihF rt _ r hr
            have hq : (Expr.multiply l r).queryVars = l.queryVars ∪ r.queryVars := by
              simp [Expr.queryVars]
            rw [hq, hvL, hvR]
            conv_rhs => rw [split_at_get hop]
            rw [tokVars_append]
            have : tokVars rt (Token.multiply :: tokens.drop (ix + 1)) =
                tokVars rt (tokens.drop (ix + 1)) := by
              simp [tokVars, List.filterMap_cons]
            rw [this]
          · rw [if_neg hop] at hit; simp at hit
        · by_cases hop : tokens.get? ix = some Token.divide
          · rw [if_pos hop] at hit
            obtain ⟨l, hl, hmap⟩ := Option.bind_eq_some.mp hit
            obtain ⟨r, hr, rfl⟩ := Option.map_eq_some'.mp hmap
            have hvL := ihT rt _ l hl
            have hvR := ihF rt _ r hr
            have hq : (Expr.divide l r).queryVars = l.queryVars ∪ r.queryVars := by
              simp [Expr.queryVars]
            rw [hq, hvL, hvR]
            conv_rhs => rw [split_at_get hop]
            rw [tokVars_append]
            have : tokVars rt (Token.divide :: tokens.drop (ix + 1)) =
                tokVars rt (tokens.drop (ix + 1)) := by
              simp [tokVars, List.filterMap_cons]
            rw [this]
          · rw [if_neg hop] at hit; simp at hit
      · rcases optOr_eq_some h2 with hneg | ⟨-, h3⟩
        · rcases hh : tokens.head? with _ | t
          · rw [hh] at hneg; simp at hneg
          · rw [hh] at hneg
            cases t with
            | minus =>
              by_cases hlen : tokens.length > 1
              · rw [if_pos hlen] at hneg
                obtain ⟨e2, he2, rfl⟩ := Option.map_eq_some'.mp hneg
                rw [List.drop_one] at he2
                have hv := ihT rt _ e2 he2
                have hq : (Expr.negate e2).queryVars = e2.queryVars := by
                  simp [Expr.queryVars]
                rw [hq, hv]
                conv_rhs => rw [← List.cons_head?_tail hh]
                simp [tokVars, List.filterMap_cons]
              · rw [if_neg hlen] at hneg; simp at hneg
            | num q => simp at hneg
            | plus => simp at hneg
            | multiply => simp at hneg
            | divide => simp at hneg
            | identifier s => simp at hneg
            | openBracket => simp at hneg
            | closeBracket => simp at hneg
            | coma => simp at hneg
        · rcases optOr_eq_some h3 with himp | ⟨-, hfac⟩
          · exact ihI rt tokens e himp
          · exact ihF rt tokens e hfac
    · -- parseImplicitMul
      intro rt tokens e h
      rw [parseImplicitMul] at h
      rcases hlast : tokens.getLast? with _ | t
      · rw [hlast] at h; simp at h
      · rw [hlast] at h
        obtain ⟨ys, hys⟩ := List.getLast?_eq_some_iff.mp hlast
        have hdl : tokens.dropLast = ys := by rw [hys]; exact List.dropLast_concat
        cases t with
        | num q =>
          obtain ⟨l, hl, rfl⟩ := Option.map_eq_some'.mp h
          have hv := ihT rt _ l hl
          rw [hdl] at hv
          have hq : (Expr.multiply l (Expr.num q)).queryVars =
              l.queryVars ∪ (Expr.num q).queryVars := by simp [Expr.queryVars]
          rw [hq, hv]
          conv_rhs => rw [hys]
          rw [tokVars_append]
          simp [tokVars, Expr.queryVars]
        | identifier v =>
          dsimp only [] at h
          by_cases hf : rt.has_func v
          · rw [if_pos hf] at h; simp at h
          · rw [if_neg hf] at h
            obtain ⟨l, hl, rfl⟩ := Option.map_eq_some'.mp h
            have hv := ihT rt _ l hl
            rw [hdl] at hv
            have hq : (Expr.multiply l (Expr.var v)).queryVars =
                l.queryVars ∪ (Expr.var v).queryVars := by simp [Expr.queryVars]
            rw [hq, hv]
            conv_rhs => rw [hys]
            rw [tokVars_append]
            simp [tokVars, Expr.queryVars, hf]
        | closeBracket =>
          dsimp only [] at h
          rcases hfmo : findMatchingOpen tokens with _ | j
          · rw [hfmo] at h; simp at h
          · rw [hfmo] at h
            dsimp only [] at h
            by_cases hcond : 2 ≤ j ∧ isFuncIdent rt (tokens.get? (j - 1)) = true
            · rw [if_pos hcond] at h
              obtain ⟨l, hl, hmap⟩ := Option.bind_eq_some.mp h
              obtain ⟨r, hr, rfl⟩ := Option.map_eq_some'.mp hmap
              have hvL := ihT rt _ l hl
              have hvR := ihF rt _ r hr
              have hq : (Expr.multiply l r).queryVars = l.queryVars ∪ r.queryVars := by
                simp [Expr.queryVars]
              rw [hq, hvL, hvR, ← tokVars_append, List.take_append_drop]
            · rw [if_neg hcond] at h
              obtain ⟨l, hl, hmap⟩ := Option.bind_eq_some.mp h
              obtain ⟨r, hr, rfl⟩ := Option.map_eq_some'.mp hmap
              have hvL := ihT rt _ l hl
              have hvR := ihF rt _ r hr
              have hq : (Expr.multiply l r).queryVars = l.queryVars ∪ r.queryVars := by
                simp [Expr.queryVars]
              rw [hq, hvL, hvR, ← tokVars_append, List.take_append_drop]
        | plus => simp at h
        | minus => simp at h
        | multiply => simp at h
        | divide => simp at h
        | openBracket => simp at h
        | coma => simp at h
    · -- parseFactor
      intro rt tokens e h
      rw [parseFactor] at h
      rcases hh : tokens.head? with _ | t
      · rw [hh] at h; simp at h
      · rw [hh] at h
        have hcons := List.cons_head?_tail hh
        cases t with
        | num q =>
          dsimp only [] at h
          by_cases hlen : tokens.length = 1
          · rw [if_pos hlen] at h
            injection h with h
            subst h
            obtain ⟨a, ha⟩ := List.length_eq_one.mp hlen
            rw [ha] at hh
            simp only [List.head?_cons, Option.some.injEq] at hh
            subst hh
            rw [ha]
            simp [Expr.queryVars, tokVars]
          · rw [if_neg hlen] at h; simp at h
        | identifier id =>
          dsimp only [] at h
          by_cases hc1 : tokens.get? 1 = some Token.openBracket ∧
              tokens.getLast? = some Token.closeBracket ∧ tokens.length > 3 ∧
              rt.has_func id = true
          · rw [if_pos hc1] at h
            obtain ⟨args, hsegs, rfl⟩ := Option.map_eq_some'.mp h
            obtain ⟨hget1, hlastc, hlen3, hfunc⟩ := hc1
            have hq : (Expr.call id args).queryVars = exprListVarsAux args ∅ := by
              simp [Expr.queryVars]
            rw [hq, exprListVarsAux_eq,
              parseSegsWith_vars rt _ (fun s e2 h2 => ihE rt s e2 h2) _ args hsegs,
              splitTopComas_vars]
            -- decompose the token list as id ( inner ) and compute both sides
            rcases htl : tokens.tail with _ | ⟨t1, tail2⟩
            · rw [← hcons, htl] at hget1; simp at hget1
            · rw [← hcons, htl] at hget1
              simp only [List.get?_cons_succ, List.get?_cons_zero, Option.some.injEq] at hget1
              subst hget1
              have htail2 : tail2.getLast? = some Token.closeBracket := by
                rw [← hcons, htl] at hlastc hlen3
                rcases tail2 with _ | ⟨u, us⟩
                · simp at hlen3
                · rw [List.getLast?_cons_cons, List.getLast?_cons_cons] at hlastc
                  exact hlastc
              obtain ⟨zs, hzs⟩ := List.getLast?_eq_some_iff.mp htail2
              have hinner : (tokens.drop 2).dropLast = zs := by
                rw [← hcons, htl, hzs]
                simp [List.dropLast_concat]
              have htoks : tokens = Token.identifier id :: Token.openBracket ::
                  (zs ++ [Token.closeBracket]) := by
                rw [← hcons, htl, hzs]
              rw [hinner]
              conv_rhs => rw [htoks]
              have h1 : tokVars rt (Token.identifier id :: Token.openBracket ::
                  (zs ++ [Token.closeBracket])) = tokVars rt (zs ++ [Token.closeBracket]) := by
                simp [tokVars, List.filterMap_cons, hfunc]
              rw [h1, tokVars_append]
              simp [tokVars]
          · rw [if_neg hc1] at h
            by_cases hc2 : tokens.length = 1 ∧ ¬ rt.has_func id = true
            · rw [if_pos hc2] at h
              injection h with h
              subst h
              obtain ⟨a, ha⟩ := List.length_eq_one.mp hc2.1
              rw [ha] at hh
              simp only [List.head?_cons, Option.some.injEq] at hh
              subst hh
              rw [ha]
              have : (Expr.var id).queryVars = {id} := by simp [Expr.queryVars]
              rw [this]
              simp [tokVars, hc2.2]
            · rw [if_neg hc2] at h; simp at h
        | openBracket =>
          dsimp only [] at h
          by_cases hlc : tokens.getLast? = some Token.closeBracket
          · rw [if_pos hlc] at h
            have hv := ihE rt _ e h
            obtain ⟨ys, hys⟩ := List.getLast?_eq_some_iff.mp hlc
            rcases ys with _ | ⟨y0, ys2⟩
            · rw [hys] at hh; simp at hh
            · have hy0 : y0 = Token.openBracket := by
                rw [hys] at hh
                simp only [List.cons_append, List.head?_cons, Option.some.injEq] at hh
                exact hh
              subst hy0
              have hdrop : (tokens.drop 1).dropLast = ys2 := by
                rw [hys]
                simp [List.dropLast_concat]
              rw [hdrop] at hv
              rw [hv]
              conv_rhs => rw [hys]
              have h2 : tokVars rt (Token.openBracket :: ys2 ++ [Token.closeBracket]) =
                  tokVars rt (ys2 ++ [Token.closeBracket]) := by
                simp [tokVars, List.filterMap_cons]
              rw [h2, tokVars_append]
              simp [tokVars]
          · rw [if_neg hlc] at h; simp at h
        | plus => simp at h
        | minus => simp at h
        | multiply => simp at h
        | divide => simp at h
        | closeBracket => simp at h
        | coma => simp at h

/-- C8: for every token sequence that parse_expr parses successfully under a
runtime, query_vars of the resulting AST equals the set of identifier tokens
the runtime does not recognise as functions. -/
theorem C8_query_vars :
    ∀ (fuel : ℕ) (rt : RuntimeM) (tokens : List Token) (e : Expr),
      parseExpr fuel rt tokens = some e → e.queryVars = tokVars rt tokens :=
  fun fuel => (parseVarsAll fuel).1

/-- C8 witness: the lone identifier token parses to a variable whose variable
set is exactly the identifier. -/
theorem C8_query_vars_witness :
    Expr.queryVars (Expr.var "x") = tokVars noFuncRuntime [Token.identifier "x"] :=
  C8_query_vars 8 noFuncRuntime [Token.identifier "x"] (Expr.var "x")
    (by with_unfolding_all rfl)
